import Mathlib

/-!
# Verification of the gtu-learn-ui progress/quiz persistence logic

Shallow embedding, in Lean 4, of the store and aggregation logic of the
`gtu-learn-ui` study application, together with proofs and refutations of its
specification claims.

Conventions used throughout:
* JavaScript `Date` values are modelled as natural numbers of milliseconds
  since the epoch.
* `Math.round(x)` on a nonnegative quotient `num / den` is modelled exactly as
  `(2 * num + den) / (2 * den)` in natural-number arithmetic (round half up),
  and is related to the rational floor `⌊num / den + 1 / 2⌋` by a lemma below.
* In-memory React state plus the backing `localStorage` value are modelled as
  explicit state records; every mutator returns the new state.
* JavaScript strings are modelled as `String` where only equality and
  concatenation matter, and as `List Char` inside the character-level text
  transforms.
-/

set_option linter.unusedVariables false

namespace GtuLearn

/-- JS `Math.round(num / den)` for natural `num`, `den` (`den > 0`):
round half up, computed as `(2 * num + den) / (2 * den)` in `ℕ`. -/
def jsRoundDiv (num den : Nat) : Nat :=
  (2 * num + den) / (2 * den)

/-- `jsRoundDiv` agrees with the rational rounding `⌊num / den + 1 / 2⌋`. -/
theorem jsRoundDiv_eq_floor (num den : Nat) (hden : 0 < den) :
    (jsRoundDiv num den : ℤ) = ⌊(num : ℚ) / den + 1 / 2⌋ := by
  have hden2 : 0 < 2 * den := by omega
  have hdm := Nat.div_add_mod (2 * num + den) (2 * den)
  have hml := Nat.mod_lt (2 * num + den) hden2
  set q := (2 * num + den) / (2 * den) with hq
  have e1 : q * (2 * den) = 2 * den * q := by ring
  have e2 : (q + 1) * (2 * den) = 2 * den * q + 2 * den := by ring
  have h1 : q * (2 * den) ≤ 2 * num + den := by omega
  have h2 : 2 * num + den < (q + 1) * (2 * den) := by omega
  have hx : (num : ℚ) / den + 1 / 2 = ((2 * num + den : ℕ) : ℚ) / ((2 * den : ℕ) : ℚ) := by
    have hdenQ : (den : ℚ) ≠ 0 := by
      exact_mod_cast Nat.pos_iff_ne_zero.mp hden
    push_cast
    field_simp
    ring
  have h2Q : (0 : ℚ) < ((2 * den : ℕ) : ℚ) := by exact_mod_cast hden2
  rw [hx]
  symm
  rw [Int.floor_eq_iff]
  unfold jsRoundDiv
  rw [← hq]
  constructor
  · rw [le_div_iff₀ h2Q]
    exact_mod_cast h1
  · rw [div_lt_iff₀ h2Q]
    exact_mod_cast h2

/-! ## Quiz history store (`src/hooks/useQuizHistory.tsx`) -/

/-- `paperInfo` provenance snapshot on a quiz question result. -/
structure PaperInfo where
  filename : String
  examination : String
  subject_code : String
  subject_name : String
  paperId : String
deriving DecidableEq

/-- One per-question result inside a quiz attempt
(interface `QuizQuestionResult`). -/
structure QuizQuestionResult where
  questionId : String
  questionNo : String
  subQuestionNo : String
  marks : Nat
  timeSpent : Nat
  userAnswer : String
  isCorrect : Bool
  confidence : Nat
  difficulty : Nat
  paperInfo : Option PaperInfo := none
  questionText : Option String := none
deriving DecidableEq

/-- Filter snapshot stored on an attempt. -/
structure QuizFilters where
  subjects : List String
  minMarks : Nat
  maxMarks : Nat
  selectedTags : List String
  revisionOnly : Bool
deriving DecidableEq

/-- One quiz attempt (interface `QuizAttempt`); times in ms, duration in
seconds. -/
structure QuizAttempt where
  id : String
  paperId : String
  startTime : Nat
  endTime : Nat
  duration : Nat
  totalQuestions : Nat
  correctAnswers : Nat
  score : Nat
  questions : List QuizQuestionResult
  filters : Option QuizFilters := none
  isHidden : Bool
deriving DecidableEq

/-- The hook's state: the React `attempts` state plus the JSON array
persisted under the `quiz-history` local-storage key. -/
structure QuizHistoryState where
  attempts : List QuizAttempt
  storage : List QuizAttempt
deriving DecidableEq

/-- `isInvalidAttempt`: an attempt with zero duration, no questions, zero
correct answers and zero score is invalid. -/
def isInvalidAttempt (attempt : QuizAttempt) : Bool :=
  attempt.duration == 0 && attempt.questions.length == 0 &&
    attempt.correctAnswers == 0 && attempt.score == 0

/-- `saveAttempts`: the list written to the `quiz-history` key — invalid
attempts are filtered out before saving. -/
def saveAttempts (newAttempts : List QuizAttempt) : List QuizAttempt :=
  newAttempts.filter (fun attempt => !isInvalidAttempt attempt)

/-- The load effect: parse the stored array, drop invalid attempts, and
rewrite storage when anything was dropped. -/
def loadQuizHistory (stored : List QuizAttempt) : QuizHistoryState :=
  let validAttempts := stored.filter (fun attempt => !isInvalidAttempt attempt)
  { attempts := validAttempts
    storage := if validAttempts.length ≠ stored.length then validAttempts else stored }

/-- `startQuizAttempt`: build a fresh zeroed attempt whose id is
`quiz-{Date.now()}-{random suffix}`, append it to the in-memory list, persist
via `saveAttempts`, and return the generated id. -/
def startQuizAttempt (now : Nat) (randSuffix : String) (paperId : String)
    (questionsLen : Nat) (filters : Option QuizFilters)
    (st : QuizHistoryState) : QuizHistoryState × String :=
  let attemptId := "quiz-" ++ toString now ++ "-" ++ randSuffix
  let newAttempt : QuizAttempt :=
    { id := attemptId
      paperId := paperId
      startTime := now
      endTime := now
      duration := 0
      totalQuestions := questionsLen
      correctAnswers := 0
      score := 0
      questions := []
      filters := filters
      isHidden := false }
  let updated := st.attempts ++ [newAttempt]
  ({ attempts := updated, storage := saveAttempts updated }, attemptId)

/-- The per-attempt finalization inside `endQuizAttempt`: set end time,
rounded duration, correct count, marks-weighted score, and replace the
result list. -/
def finalizeAttempt (now : Nat) (results : List QuizQuestionResult)
    (attempt : QuizAttempt) : QuizAttempt :=
  let endTime := now
  let duration := jsRoundDiv (endTime - attempt.startTime) 1000
  let correctAnswers := (results.filter (fun r => r.isCorrect)).length
  let totalMarks := (results.map (fun r => r.marks)).sum
  let earnedMarks := ((results.filter (fun r => r.isCorrect)).map (fun r => r.marks)).sum
  let score := if totalMarks > 0 then jsRoundDiv (earnedMarks * 100) totalMarks else 0
  { attempt with
      endTime := endTime
      duration := duration
      correctAnswers := correctAnswers
      score := score
      questions := results }

/-- `endQuizAttempt`: finalize the matching attempt, persist with invalid
attempts filtered, and keep the filtered list as the new in-memory state. -/
def endQuizAttempt (attemptId : String) (now : Nat)
    (results : List QuizQuestionResult) (st : QuizHistoryState) : QuizHistoryState :=
  let updated := st.attempts.map (fun attempt =>
    if attempt.id == attemptId then finalizeAttempt now results attempt else attempt)
  { attempts := updated.filter (fun attempt => !isInvalidAttempt attempt)
    storage := saveAttempts updated }

/-- Total marks of a result list (specification-side shorthand). -/
def totalMarksOf (results : List QuizQuestionResult) : Nat :=
  (results.map (fun r => r.marks)).sum

/-- Marks earned by the correct results (specification-side shorthand). -/
def earnedMarksOf (results : List QuizQuestionResult) : Nat :=
  ((results.filter (fun r => r.isCorrect)).map (fun r => r.marks)).sum

/-- The attempt record built by `startQuizAttempt` (specification-side name
for the literal in the source). -/
def startedAttempt (now : Nat) (randSuffix paperId : String)
    (questionsLen : Nat) (filters : Option QuizFilters) : QuizAttempt :=
  { id := "quiz-" ++ toString now ++ "-" ++ randSuffix
    paperId := paperId
    startTime := now
    endTime := now
    duration := 0
    totalQuestions := questionsLen
    correctAnswers := 0
    score := 0
    questions := []
    filters := filters
    isHidden := false }

/-- Filtering by a predicate that some member falsifies strictly shrinks a
list. -/
theorem length_filter_lt_of_mem {α : Type} (p : α → Bool) {a : α} {l : List α}
    (ha : a ∈ l) (hpa : p a = false) : (l.filter p).length < l.length := by
  induction l with
  | nil => cases ha
  | cons b t ih =>
    rcases List.mem_cons.mp ha with rfl | hmem
    · have hle := t.length_filter_le p
      simp only [List.filter, hpa, List.length_cons]
      omega
    · by_cases hb : p b = true
      · simp only [List.filter, hb, List.length_cons]
        have := ih hmem
        omega
      · have hb' : p b = false := by
          cases hpb : p b
          · rfl
          · exact absurd hpb hb
        have hle := t.length_filter_le p
        simp only [List.filter, hb', List.length_cons]
        omega

/-- The score field written by `finalizeAttempt`, expressed with rational
rounding. -/
theorem finalizeAttempt_score (now : Nat) (results : List QuizQuestionResult)
    (attempt : QuizAttempt) :
    ((finalizeAttempt now results attempt).score : ℤ) =
      if totalMarksOf results = 0 then 0
      else ⌊100 * (earnedMarksOf results : ℚ) / (totalMarksOf results : ℚ) + 1 / 2⌋ := by
  rcases Nat.eq_zero_or_pos (totalMarksOf results) with h | h
  · simp [finalizeAttempt, totalMarksOf, earnedMarksOf] at *
    simp [h]
  · rw [if_neg (by omega)]
    have hscore : (finalizeAttempt now results attempt).score =
        jsRoundDiv (earnedMarksOf results * 100) (totalMarksOf results) := by
      simp only [finalizeAttempt, totalMarksOf, earnedMarksOf] at h ⊢
      rw [if_pos h]
    rw [hscore, jsRoundDiv_eq_floor _ _ h]
    congr 1
    push_cast
    ring

/-- The id field is untouched by `finalizeAttempt`. -/
theorem finalizeAttempt_id (now : Nat) (results : List QuizQuestionResult)
    (attempt : QuizAttempt) :
    (finalizeAttempt now results attempt).id = attempt.id := rfl

/-- A concrete attempt used to evaluate the store operations. -/
def attemptA : QuizAttempt :=
  { id := "A"
    paperId := "paper.json"
    startTime := 0
    endTime := 0
    duration := 0
    totalQuestions := 2
    correctAnswers := 0
    score := 0
    questions := []
    filters := none
    isHidden := false }

/-- A concrete correct 5-mark result. -/
def resultCorrect5 : QuizQuestionResult :=
  { questionId := "1_a"
    questionNo := "1"
    subQuestionNo := "a"
    marks := 5
    timeSpent := 30
    userAnswer := "ans"
    isCorrect := true
    confidence := 4
    difficulty := 2 }

/-- A concrete wrong 5-mark result. -/
def resultWrong5 : QuizQuestionResult :=
  { questionId := "1_b"
    questionNo := "1"
    subQuestionNo := "b"
    marks := 5
    timeSpent := 20
    userAnswer := "oops"
    isCorrect := false
    confidence := 2
    difficulty := 3 }

/-- C1 (counterexample): starting an attempt on an empty store leaves the
persisted `quiz-history` value empty, so the newly created attempt is *not*
contained in it, although it is in the in-memory list. -/
theorem startQuizAttempt_not_persisted_cex :
    (startQuizAttempt 1000 "abc" "paper.json" 2 none ⟨[], []⟩).1.attempts =
      [startedAttempt 1000 "abc" "paper.json" 2 none]
    ∧ (startQuizAttempt 1000 "abc" "paper.json" 2 none ⟨[], []⟩).1.storage = [] := by
  constructor
  · rfl
  · rfl

/-- C1 (amended): `startQuizAttempt` returns the generated id
`quiz-{now}-{suffix}`, appends the fresh zeroed attempt to the in-memory
list, and immediately persists the store with invalid attempts filtered out;
the fresh attempt is itself invalid, so the persisted value equals the
previous attempts minus invalid ones and never contains the fresh attempt. -/
theorem startQuizAttempt_spec (now : Nat) (randSuffix paperId : String)
    (questionsLen : Nat) (filters : Option QuizFilters) (st : QuizHistoryState) :
    (startQuizAttempt now randSuffix paperId questionsLen filters st).2 =
      "quiz-" ++ toString now ++ "-" ++ randSuffix
    ∧ (startQuizAttempt now randSuffix paperId questionsLen filters st).1.attempts =
        st.attempts ++ [startedAttempt now randSuffix paperId questionsLen filters]
    ∧ (startQuizAttempt now randSuffix paperId questionsLen filters st).1.storage =
        st.attempts.filter (fun a => !isInvalidAttempt a)
    ∧ startedAttempt now randSuffix paperId questionsLen filters ∉
        (startQuizAttempt now randSuffix paperId questionsLen filters st).1.storage := by
  have hinv : isInvalidAttempt (startedAttempt now randSuffix paperId questionsLen filters) =
      true := rfl
  refine ⟨rfl, rfl, ?_, ?_⟩
  · show saveAttempts (st.attempts ++ [startedAttempt now randSuffix paperId questionsLen filters]) = _
    unfold saveAttempts
    rw [List.filter_append]
    simp [hinv]
  · intro hmem
    have := List.of_mem_filter hmem
    rw [hinv] at this
    simp at this

/-- C1 (witness): the amended statement applied at a concrete input. -/
theorem startQuizAttempt_spec_witness :
    startedAttempt 1000 "abc" "paper.json" 2 none ∉
      (startQuizAttempt 1000 "abc" "paper.json" 2 none ⟨[attemptA], [attemptA]⟩).1.storage :=
  (startQuizAttempt_spec 1000 "abc" "paper.json" 2 none ⟨[attemptA], [attemptA]⟩).2.2.2

/-- C3 (counterexample): ending an attempt with an empty result list after 5
seconds yields duration 5, so the finalized attempt is *not* excluded — it
remains visible in both the in-memory list and the persisted value. -/
theorem endQuizAttempt_empty_results_cex :
    ((endQuizAttempt "A" 5000 [] ⟨[attemptA], []⟩).attempts.any (fun a => a.id == "A")) = true
    ∧ ((endQuizAttempt "A" 5000 [] ⟨[attemptA], []⟩).storage.any (fun a => a.id == "A")) = true := by
  constructor
  · rfl
  · rfl

/-- C3 (amended): an attempt with zero duration, zero questions, zero correct
answers and zero score never survives a load or a save of the quiz history
store; `endQuizAttempt` with an empty result list excludes the finalized
attempt from subsequent reads exactly when the rounded duration
(`round((now − startTime) / 1000)`) is zero. -/
theorem quizHistory_invalid_purge_spec :
    (∀ (stored : List QuizAttempt) (a : QuizAttempt), isInvalidAttempt a = true →
        a ∉ (loadQuizHistory stored).attempts ∧ a ∉ (loadQuizHistory stored).storage ∧
        ∀ newAttempts : List QuizAttempt, a ∉ saveAttempts newAttempts)
    ∧ (∀ (attemptId : String) (now : Nat) (st : QuizHistoryState) (a : QuizAttempt),
        a ∈ st.attempts → a.id = attemptId →
        ((finalizeAttempt now [] a ∈ (endQuizAttempt attemptId now [] st).attempts ∧
          finalizeAttempt now [] a ∈ (endQuizAttempt attemptId now [] st).storage)
          ↔ jsRoundDiv (now - a.startTime) 1000 ≠ 0)) := by
  have hnotmem : ∀ (a : QuizAttempt) (l : List QuizAttempt), isInvalidAttempt a = true →
      a ∉ l.filter (fun x => !isInvalidAttempt x) := by
    intro a l hinv hmem
    have := List.of_mem_filter hmem
    rw [hinv] at this
    simp at this
  constructor
  · intro stored a hinv
    refine ⟨hnotmem a stored hinv, ?_, fun newAttempts => hnotmem a newAttempts hinv⟩
    show a ∉ (if (stored.filter (fun attempt => !isInvalidAttempt attempt)).length ≠ stored.length
        then stored.filter (fun attempt => !isInvalidAttempt attempt) else stored)
    by_cases hc :
        (stored.filter (fun attempt => !isInvalidAttempt attempt)).length ≠ stored.length
    · rw [if_pos hc]
      exact hnotmem a stored hinv
    · rw [if_neg hc]
      intro hmem
      exact hc (Nat.ne_of_lt (length_filter_lt_of_mem _ hmem (by simp [hinv])))
  · intro attemptId now st a hmem hid
    have hfin : isInvalidAttempt (finalizeAttempt now [] a) =
        (jsRoundDiv (now - a.startTime) 1000 == 0) := by
      simp [isInvalidAttempt, finalizeAttempt]
    constructor
    · rintro ⟨hma, _⟩
      intro hzero
      have := List.of_mem_filter hma
      rw [hfin] at this
      simp [hzero] at this
    · intro hne
      have hkeep : (!isInvalidAttempt (finalizeAttempt now [] a)) = true := by
        rw [hfin]
        simp [hne]
      have hupd : finalizeAttempt now [] a ∈
          st.attempts.map (fun attempt =>
            if attempt.id == attemptId then finalizeAttempt now [] attempt else attempt) := by
        have : (if a.id == attemptId then finalizeAttempt now [] a else a) =
            finalizeAttempt now [] a := by
          rw [if_pos (by simp [hid])]
        exact this ▸ List.mem_map_of_mem _ hmem
      exact ⟨List.mem_filter.mpr ⟨hupd, hkeep⟩, List.mem_filter.mpr ⟨hupd, hkeep⟩⟩

/-- C3 (witness): the amended statement applied at concrete inputs — an
all-zero attempt is dropped by a load, and a 5-second empty-result
finalization survives in the persisted value. -/
theorem quizHistory_invalid_purge_spec_witness :
    attemptA ∉ (loadQuizHistory [attemptA]).attempts
    ∧ finalizeAttempt 5000 [] attemptA ∈ (endQuizAttempt "A" 5000 [] ⟨[attemptA], []⟩).storage :=
  ⟨(quizHistory_invalid_purge_spec.1 [attemptA] attemptA rfl).1,
   ((quizHistory_invalid_purge_spec.2 "A" 5000 ⟨[attemptA], []⟩ attemptA
      (List.mem_singleton.mpr rfl) rfl).mpr (by decide)).2⟩

/-- C5: the stored score of a finalized attempt equals
`round(100 × earnedMarks / totalMarks)` (0 when `totalMarks = 0`), and for
two 5-mark questions with exactly one correct the score is 50. -/
theorem endQuizAttempt_score_spec (attemptId : String) (now : Nat)
    (results : List QuizQuestionResult) (st : QuizHistoryState) :
    (∀ a ∈ (endQuizAttempt attemptId now results st).storage, a.id = attemptId →
        (a.score : ℤ) =
          if totalMarksOf results = 0 then 0
          else ⌊100 * (earnedMarksOf results : ℚ) / (totalMarksOf results : ℚ) + 1 / 2⌋)
    ∧ (∀ r1 r2 : QuizQuestionResult, r1.marks = 5 → r2.marks = 5 →
        r1.isCorrect = true → r2.isCorrect = false →
        ∀ attempt : QuizAttempt, (finalizeAttempt now [r1, r2] attempt).score = 50) := by
  constructor
  · intro a hmem hid
    have hmap := List.mem_filter.mp hmem |>.1
    rcases List.mem_map.mp hmap with ⟨b, hb, hba⟩
    by_cases hbid : b.id == attemptId
    · rw [if_pos hbid] at hba
      rw [← hba]
      exact finalizeAttempt_score now results b
    · rw [if_neg hbid] at hba
      rw [← hba] at hid
      simp [hid] at hbid
  · intro r1 r2 h1 h2 hc1 hc2 attempt
    have : (finalizeAttempt now [r1, r2] attempt).score =
        (if ([r1, r2].map (fun r => r.marks)).sum > 0 then
          jsRoundDiv ((([r1, r2].filter (fun r => r.isCorrect)).map (fun r => r.marks)).sum * 100)
            (([r1, r2].map (fun r => r.marks)).sum)
        else 0) := rfl
    rw [this]
    simp [h1, h2, hc1, hc2, List.filter, jsRoundDiv]

/-- C5 (witness): the statement applied at a concrete store and result
list. -/
theorem endQuizAttempt_score_spec_witness :
    (finalizeAttempt 5000 [resultCorrect5, resultWrong5] attemptA).score = 50 :=
  (endQuizAttempt_score_spec "A" 5000 [resultCorrect5, resultWrong5]
      ⟨[attemptA], []⟩).2 resultCorrect5 resultWrong5 rfl rfl rfl rfl attemptA

/-! ## Character-level text transforms
(`cleanAnswerText` in `src/hooks/useQuestionPaper.tsx`, `formatMathContent`
in `src/utils/textUtils.ts`)

Each JavaScript `String.replace` with a global regex is modelled as a
left-to-right scanner over `List Char`, continuing after each replacement,
advancing one character on a failed match attempt — exactly the JS regex
engine's global-scan behaviour for these patterns (each of which matches
deterministically, as their greedy/lazy parts cannot backtrack into a
successful alternative). The scanners take an explicit fuel argument, set to
the input length by the wrappers; fuel can never run out because every
recursive call consumes at least one character, and an exhausted-fuel call
returns its argument unchanged. -/

/-- JS regex `\s` restricted to the ASCII whitespace characters. -/
def jsWs (c : Char) : Bool :=
  c == ' ' || c == '\t' || c == '\n' || c == '\r' || c == '\x0b' || c == '\x0c'

/-- Split `l` at the first occurrence of `stop`: the greedy run of
non-`stop` characters and the suffix after the `stop`, or `none` when `stop`
does not occur (the engine's handling of `([^s]*)s`). -/
def findClose (stop : Char) (l : List Char) : Option (List Char × List Char) :=
  match l.dropWhile (fun c => c != stop) with
  | _ :: rest => some (l.takeWhile (fun c => c != stop), rest)
  | [] => none

/-- Scanner for `/\$([^$]+)\$/g` → `<span class="inline-math">$1</span>`. -/
def replaceInlineMathF : Nat → List Char → List Char
  | _, [] => []
  | 0, l => l
  | fuel + 1, c :: rest =>
    if c == '$' then
      match findClose '$' rest with
      | some (content, rest') =>
        if content.isEmpty then c :: replaceInlineMathF fuel rest
        else "<span class=\"inline-math\">".toList ++ content ++ "</span>".toList ++
          replaceInlineMathF fuel rest'
      | none => c :: rest
    else c :: replaceInlineMathF fuel rest

/-- Wrapper with fuel set to the input length. -/
def replaceInlineMath (l : List Char) : List Char := replaceInlineMathF l.length l

/-- Scanner for `/\$\$([^$]+)\$\$/g` → `<div class="display-math">$1</div>`. -/
def replaceDisplayMathF : Nat → List Char → List Char
  | _, [] => []
  | 0, l => l
  | fuel + 1, c :: rest =>
    if c == '$' then
      match rest with
      | [] => [c]
      | c2 :: rest2 =>
        if c2 == '$' then
          match findClose '$' rest2 with
          | some (content, rest') =>
            match rest' with
            | c3 :: rest3 =>
              if c3 == '$' && !content.isEmpty then
                "<div class=\"display-math\">".toList ++ content ++ "</div>".toList ++
                  replaceDisplayMathF fuel rest3
              else c :: replaceDisplayMathF fuel rest
            | [] => c :: replaceDisplayMathF fuel rest
          | none => c :: c2 :: rest2
        else c :: replaceDisplayMathF fuel rest
    else c :: replaceDisplayMathF fuel rest

/-- Wrapper with fuel set to the input length. -/
def replaceDisplayMath (l : List Char) : List Char := replaceDisplayMathF l.length l

/-- Scanner for `/\\cmd\{([^}]+)\}/g` → `pre ++ $1 ++ post`, where `cmd`
includes the opening brace (used for `\mathbf{…}` and `\text{…}`). -/
def replaceCmdArgF (cmd pre post : List Char) : Nat → List Char → List Char
  | _, [] => []
  | 0, l => l
  | fuel + 1, c :: rest =>
    if c == '\\' && cmd.isPrefixOf rest then
      match findClose '}' (rest.drop cmd.length) with
      | some (content, rest') =>
        if content.isEmpty then c :: replaceCmdArgF cmd pre post fuel rest
        else pre ++ content ++ post ++ replaceCmdArgF cmd pre post fuel rest'
      | none => c :: replaceCmdArgF cmd pre post fuel rest
    else c :: replaceCmdArgF cmd pre post fuel rest

/-- Wrapper with fuel set to the input length. -/
def replaceCmdArg (cmd pre post l : List Char) : List Char :=
  replaceCmdArgF cmd pre post l.length l

/-- Scanner for a literal global replace `/p ps/g` → `rep` (the pattern is
`p :: ps`, split to keep it non-empty). -/
def replaceLitF (p : Char) (ps rep : List Char) : Nat → List Char → List Char
  | _, [] => []
  | 0, l => l
  | fuel + 1, c :: rest =>
    if c == p && ps.isPrefixOf rest then
      rep ++ replaceLitF p ps rep fuel (rest.drop ps.length)
    else c :: replaceLitF p ps rep fuel rest

/-- Wrapper with fuel set to the input length. -/
def replaceLit (p : Char) (ps rep l : List Char) : List Char :=
  replaceLitF p ps rep l.length l

/-- JS regex `[a-zA-Z]`. -/
def jsLetter (c : Char) : Bool := ('a' ≤ c && c ≤ 'z') || ('A' ≤ c && c ≤ 'Z')

/-- Scanner for `/\\[a-zA-Z]+\{([^}]*)\}/g` → `$1`. -/
def replaceGenericCmdF : Nat → List Char → List Char
  | _, [] => []
  | 0, l => l
  | fuel + 1, c :: rest =>
    if c == '\\' then
      if (rest.takeWhile jsLetter).isEmpty then c :: replaceGenericCmdF fuel rest
      else
        match rest.drop (rest.takeWhile jsLetter).length with
        | '{' :: rest2 =>
          match findClose '}' rest2 with
          | some (content, rest') => content ++ replaceGenericCmdF fuel rest'
          | none => c :: replaceGenericCmdF fuel rest
        | _ => c :: replaceGenericCmdF fuel rest
    else c :: replaceGenericCmdF fuel rest

/-- Wrapper with fuel set to the input length. -/
def replaceGenericCmd (l : List Char) : List Char := replaceGenericCmdF l.length l

/-- `formatMathContent` (`src/utils/textUtils.ts`): the chain of global
replaces over a question/answer text, in source order. The replacement
strings for the symbol table are the exact characters stored in the source
file. -/
def formatMathContent (text : List Char) : List Char :=
  if text.isEmpty then [] else
  let f1 := replaceInlineMath text
  let f2 := replaceDisplayMath f1
  let f3 := replaceCmdArg "mathbf\x7b".toList "<strong>".toList "</strong>".toList f2
  let f4 := replaceCmdArg "text\x7b".toList [] [] f3
  let f5 := replaceLit '\\' "quad".toList "&nbsp;&nbsp;&nbsp;&nbsp;".toList f4
  let f6 := replaceLit '\\' "Rightarrow".toList "ŌćÆ".toList f5
  let f7 := replaceLit '\\' "rightarrow".toList "ŌåÆ".toList f6
  let f8 := replaceLit '\\' "leftarrow".toList "ŌåÉ".toList f7
  let f9 := replaceLit '\\' "le".toList "Ōēż".toList f8
  let f10 := replaceLit '\\' "ge".toList "Ōēź".toList f9
  let f11 := replaceLit '\\' "ne".toList "ŌēĀ".toList f10
  let f12 := replaceLit '\\' "pm".toList "┬▒".toList f11
  let f13 := replaceLit '\\' "times".toList "├Ś".toList f12
  let f14 := replaceLit '\\' "div".toList "├Ę".toList f13
  let f15 := replaceLit '\\' "alpha".toList "╬▒".toList f14
  let f16 := replaceLit '\\' "beta".toList "╬▓".toList f15
  let f17 := replaceLit '\\' "gamma".toList "╬│".toList f16
  let f18 := replaceLit '\\' "delta".toList "╬┤".toList f17
  let f19 := replaceLit '\\' "lambda".toList "╬╗".toList f18
  let f20 := replaceLit '\\' "nabla".toList "Ōłć".toList f19
  let f21 := replaceLit '\\' "partial".toList "Ōłé".toList f20
  let f22 := replaceLit '\\' "sum".toList "Ōłæ".toList f21
  let f23 := replaceLit '\\' "int".toList "Ōł½".toList f22
  let f24 := replaceLit '\\' "infty".toList "Ōł×".toList f23
  let f25 := replaceGenericCmd f24
  replaceLit '\\' "\\".toList "<br>".toList f25

/-- `formatQuestionText` (`src/hooks/useQuestionPaper.tsx`): apply the
mathematical formatting to a question text. -/
def formatQuestionText (text : List Char) : List Char := formatMathContent text

/-- Consume one expected character. -/
def expectChar (c : Char) : List Char → Option (List Char)
  | x :: rest => if x == c then some rest else none
  | [] => none

/-- Consume an expected literal. -/
def expectLit (ps l : List Char) : Option (List Char) :=
  if ps.isPrefixOf l then some (l.drop ps.length) else none

/-- Consume the greedy `\s*`. -/
def skipWs (l : List Char) : List Char := l.dropWhile jsWs

/-- Lazy `[\s\S]*?\n\n`: consume up to and including the first blank line. -/
def dropThroughBlank : List Char → Option (List Char)
  | '\n' :: '\n' :: rest => some rest
  | _ :: rest => dropThroughBlank rest
  | [] => none

/-- Match the tail of `/\|\s*:\s*---\s*\|\s*:\s*---\s*\|[\s\S]*?\n\n/` after
its initial `|`. -/
def tryTableSep (l : List Char) : Option (List Char) :=
  (expectChar ':' (skipWs l)).bind fun l1 =>
  (expectLit "---".toList (skipWs l1)).bind fun l2 =>
  (expectChar '|' (skipWs l2)).bind fun l3 =>
  (expectChar ':' (skipWs l3)).bind fun l4 =>
  (expectLit "---".toList (skipWs l4)).bind fun l5 =>
  (expectChar '|' (skipWs l5)).bind fun l6 =>
  dropThroughBlank l6

/-- Scanner for the table-separator removal (`.replace(..., '')`). -/
def replaceTableSepF : Nat → List Char → List Char
  | _, [] => []
  | 0, l => l
  | fuel + 1, c :: rest =>
    if c == '|' then
      match tryTableSep rest with
      | some rest' => replaceTableSepF fuel rest'
      | none => c :: replaceTableSepF fuel rest
    else c :: replaceTableSepF fuel rest

/-- Wrapper with fuel set to the input length. -/
def replaceTableSep (l : List Char) : List Char := replaceTableSepF l.length l

/-- Match the tail of `/\|\s*Type\s*\|\s*[^|]*\|\s*[^|]*\|/` after its
initial `|` (`\s*[^|]*\|` consumes the greedy non-`|` run then the bar). -/
def tryTableType (l : List Char) : Option (List Char) :=
  (expectLit "Type".toList (skipWs l)).bind fun l1 =>
  (expectChar '|' (skipWs l1)).bind fun l2 =>
  (findClose '|' l2).bind fun p =>
  (findClose '|' p.2).bind fun p2 =>
  some p2.2

/-- Scanner for the `| Type | … | … |` row removal. -/
def replaceTableTypeF : Nat → List Char → List Char
  | _, [] => []
  | 0, l => l
  | fuel + 1, c :: rest =>
    if c == '|' then
      match tryTableType rest with
      | some rest' => replaceTableTypeF fuel rest'
      | none => c :: replaceTableTypeF fuel rest
    else c :: replaceTableTypeF fuel rest

/-- Wrapper with fuel set to the input length. -/
def replaceTableType (l : List Char) : List Char := replaceTableTypeF l.length l

/-- `/lit[\s\S]*$/` → `''` (non-global, no `m` flag, greedy tail): delete
everything from the first occurrence of the literal `p :: ps` on. -/
def truncateFrom (p : Char) (ps : List Char) : List Char → List Char
  | [] => []
  | c :: rest =>
    if c == p && ps.isPrefixOf rest then [] else c :: truncateFrom p ps rest

/-- Scanner for `/\n{3,}/g` → `'\n\n'`. -/
def collapseNewlinesF : Nat → List Char → List Char
  | _, [] => []
  | 0, l => l
  | fuel + 1, c :: rest =>
    if c == '\n' then
      if (rest.takeWhile (fun x => x == '\n')).length + 1 ≥ 3 then
        '\n' :: '\n' ::
          collapseNewlinesF fuel (rest.drop (rest.takeWhile (fun x => x == '\n')).length)
      else c :: collapseNewlinesF fuel rest
    else c :: collapseNewlinesF fuel rest

/-- Wrapper with fuel set to the input length. -/
def collapseNewlines (l : List Char) : List Char := collapseNewlinesF l.length l

/-- Largest index of `'\n'` in a list, or `none`. -/
def lastNL : List Char → Option Nat
  | [] => none
  | c :: rest =>
    match lastNL rest with
    | some j => some (j + 1)
    | none => if c == '\n' then some 0 else none

/-- Scanner for `/\s+$/gm` → `''`: at a whitespace character, the greedy
`\s+` run backtracks to the largest end position that is the end of the
input or sits on a `'\n'` (the multiline `$`); the position one past the
run is on a non-whitespace character and can never be `'\n'`, so only the
end of input or a `'\n'` inside the run itself can close a match. -/
def stripTrailingWSF : Nat → List Char → List Char
  | _, [] => []
  | 0, l => l
  | fuel + 1, c :: rest =>
    if jsWs c then
      if ((c :: rest).drop ((c :: rest).takeWhile jsWs).length).isEmpty then []
      else
        match lastNL (((c :: rest).takeWhile jsWs).drop 1) with
        | some j => stripTrailingWSF fuel ((c :: rest).drop (j + 1))
        | none => c :: stripTrailingWSF fuel rest
    else c :: stripTrailingWSF fuel rest

/-- Wrapper with fuel set to the input length. -/
def stripTrailingWS (l : List Char) : List Char := stripTrailingWSF l.length l

/-- Scanner for `/^\s+/gm` → `''`: `atStart` records whether the current
position is the start of the input or follows a `'\n'`. -/
def stripLeadingWSF : Nat → Bool → List Char → List Char
  | _, _, [] => []
  | 0, _, l => l
  | fuel + 1, atStart, c :: rest =>
    if atStart && jsWs c then
      stripLeadingWSF fuel false ((c :: rest).drop ((c :: rest).takeWhile jsWs).length)
    else c :: stripLeadingWSF fuel (c == '\n') rest

/-- Wrapper with fuel set to the input length, starting at a line start. -/
def stripLeadingWS (l : List Char) : List Char := stripLeadingWSF l.length true l

/-- `/lit[\s\S]*?$/` → `''` (non-global, no `m` flag, lazy tail): from the
first occurrence of the literal `p :: ps`, the lazy tail stops at the
earliest position where `$` matches — just before a final `'\n'` when one
lies beyond the literal, otherwise the end of input. -/
def truncateLazyEnd (p : Char) (ps : List Char) : List Char → List Char
  | [] => []
  | c :: rest =>
    if c == p && ps.isPrefixOf rest then
      if rest.length > ps.length && rest.getLast? == some '\n' then ['\n'] else []
    else c :: truncateLazyEnd p ps rest

/-- JS `String.prototype.trim()` over the modelled whitespace class. -/
def jsTrim (l : List Char) : List Char :=
  ((l.dropWhile jsWs).reverse.dropWhile jsWs).reverse

/-- `cleanAnswerText` (`src/hooks/useQuestionPaper.tsx`): the chain of
answer-text cleanups, in source order. -/
def cleanAnswerText (text : List Char) : List Char :=
  if text.isEmpty then [] else
  let c1 := replaceTableSep text
  let c2 := replaceTableType c1
  let c3 := truncateFrom '#' "## **Memory Techniques**".toList c2
  let c4 := truncateFrom '*' "*Memory Techniques:**".toList c3
  let c5 := collapseNewlines c4
  let c6 := stripTrailingWS c5
  let c7 := stripLeadingWS c6
  let c8 := replaceLit '\\' "$".toList "$".toList c7
  let c9 := replaceLit '\\' "[".toList "[".toList c8
  let c10 := replaceLit '\\' "]".toList "]".toList c9
  let c11 := truncateLazyEnd '[' "Image of".toList c10
  let c12 := truncateLazyEnd '(' "Note:".toList c11
  jsTrim c12

/-! ### The transforms act as the identity away from their trigger
characters -/

/-- `replaceInlineMath` is the identity on `'$'`-free inputs. -/
theorem replaceInlineMathF_id {l : List Char} (h : ∀ c ∈ l, c ≠ '$') :
    ∀ fuel, replaceInlineMathF fuel l = l := by
  induction l with
  | nil => intro fuel; cases fuel <;> rfl
  | cons c rest ih =>
    intro fuel
    cases fuel with
    | zero => rfl
    | succ fuel =>
      rw [replaceInlineMathF, if_neg (by simp [h c (List.mem_cons_self c rest)]),
        ih (fun x hx => h x (List.mem_cons_of_mem c hx)) fuel]

/-- `replaceDisplayMath` is the identity on `'$'`-free inputs. -/
theorem replaceDisplayMathF_id {l : List Char} (h : ∀ c ∈ l, c ≠ '$') :
    ∀ fuel, replaceDisplayMathF fuel l = l := by
  induction l with
  | nil => intro fuel; cases fuel <;> rfl
  | cons c rest ih =>
    intro fuel
    cases fuel with
    | zero => rfl
    | succ fuel =>
      rw [replaceDisplayMathF.eq_def]
      dsimp only
      rw [if_neg (by simp [h c (List.mem_cons_self c rest)]),
        ih (fun x hx => h x (List.mem_cons_of_mem c hx)) fuel]

/-- `replaceCmdArg` is the identity on backslash-free inputs. -/
theorem replaceCmdArgF_id (cmd pre post : List Char) {l : List Char}
    (h : ∀ c ∈ l, c ≠ '\\') : ∀ fuel, replaceCmdArgF cmd pre post fuel l = l := by
  induction l with
  | nil => intro fuel; cases fuel <;> rfl
  | cons c rest ih =>
    intro fuel
    cases fuel with
    | zero => rfl
    | succ fuel =>
      rw [replaceCmdArgF, if_neg (by simp [h c (List.mem_cons_self c rest)]),
        ih (fun x hx => h x (List.mem_cons_of_mem c hx)) fuel]

/-- `replaceLit` is the identity when the pattern head does not occur. -/
theorem replaceLitF_id (p : Char) (ps rep : List Char) {l : List Char}
    (h : ∀ c ∈ l, c ≠ p) : ∀ fuel, replaceLitF p ps rep fuel l = l := by
  induction l with
  | nil => intro fuel; cases fuel <;> rfl
  | cons c rest ih =>
    intro fuel
    cases fuel with
    | zero => rfl
    | succ fuel =>
      rw [replaceLitF, if_neg (by simp [h c (List.mem_cons_self c rest)]),
        ih (fun x hx => h x (List.mem_cons_of_mem c hx)) fuel]

/-- `replaceGenericCmd` is the identity on backslash-free inputs. -/
theorem replaceGenericCmdF_id {l : List Char} (h : ∀ c ∈ l, c ≠ '\\') :
    ∀ fuel, replaceGenericCmdF fuel l = l := by
  induction l with
  | nil => intro fuel; cases fuel <;> rfl
  | cons c rest ih =>
    intro fuel
    cases fuel with
    | zero => rfl
    | succ fuel =>
      rw [replaceGenericCmdF, if_neg (by simp [h c (List.mem_cons_self c rest)]),
        ih (fun x hx => h x (List.mem_cons_of_mem c hx)) fuel]

/-- `replaceTableSep` is the identity on `'|'`-free inputs. -/
theorem replaceTableSepF_id {l : List Char} (h : ∀ c ∈ l, c ≠ '|') :
    ∀ fuel, replaceTableSepF fuel l = l := by
  induction l with
  | nil => intro fuel; cases fuel <;> rfl
  | cons c rest ih =>
    intro fuel
    cases fuel with
    | zero => rfl
    | succ fuel =>
      rw [replaceTableSepF, if_neg (by simp [h c (List.mem_cons_self c rest)]),
        ih (fun x hx => h x (List.mem_cons_of_mem c hx)) fuel]

/-- `replaceTableType` is the identity on `'|'`-free inputs. -/
theorem replaceTableTypeF_id {l : List Char} (h : ∀ c ∈ l, c ≠ '|') :
    ∀ fuel, replaceTableTypeF fuel l = l := by
  induction l with
  | nil => intro fuel; cases fuel <;> rfl
  | cons c rest ih =>
    intro fuel
    cases fuel with
    | zero => rfl
    | succ fuel =>
      rw [replaceTableTypeF, if_neg (by simp [h c (List.mem_cons_self c rest)]),
        ih (fun x hx => h x (List.mem_cons_of_mem c hx)) fuel]

/-- `truncateFrom` is the identity when the pattern head does not occur. -/
theorem truncateFrom_id (p : Char) (ps : List Char) {l : List Char}
    (h : ∀ c ∈ l, c ≠ p) : truncateFrom p ps l = l := by
  induction l with
  | nil => rfl
  | cons c rest ih =>
    rw [truncateFrom, if_neg (by simp [h c (List.mem_cons_self c rest)]),
      ih (fun x hx => h x (List.mem_cons_of_mem c hx))]

/-- `truncateLazyEnd` is the identity when the pattern head does not occur. -/
theorem truncateLazyEnd_id (p : Char) (ps : List Char) {l : List Char}
    (h : ∀ c ∈ l, c ≠ p) : truncateLazyEnd p ps l = l := by
  induction l with
  | nil => rfl
  | cons c rest ih =>
    rw [truncateLazyEnd, if_neg (by simp [h c (List.mem_cons_self c rest)]),
      ih (fun x hx => h x (List.mem_cons_of_mem c hx))]

/-- A whitespace-free character is not a newline. -/
theorem ne_nl_of_not_ws {c : Char} (h : jsWs c = false) : c ≠ '\n' := by
  intro he
  subst he
  exact absurd h (by decide)

/-- `collapseNewlines` is the identity on whitespace-free inputs. -/
theorem collapseNewlinesF_id {l : List Char} (h : ∀ c ∈ l, jsWs c = false) :
    ∀ fuel, collapseNewlinesF fuel l = l := by
  induction l with
  | nil => intro fuel; cases fuel <;> rfl
  | cons c rest ih =>
    intro fuel
    cases fuel with
    | zero => rfl
    | succ fuel =>
      rw [collapseNewlinesF,
        if_neg (by simp [ne_nl_of_not_ws (h c (List.mem_cons_self c rest))]),
        ih (fun x hx => h x (List.mem_cons_of_mem c hx)) fuel]

/-- `stripTrailingWS` is the identity on whitespace-free inputs. -/
theorem stripTrailingWSF_id {l : List Char} (h : ∀ c ∈ l, jsWs c = false) :
    ∀ fuel, stripTrailingWSF fuel l = l := by
  induction l with
  | nil => intro fuel; cases fuel <;> rfl
  | cons c rest ih =>
    intro fuel
    cases fuel with
    | zero => rfl
    | succ fuel =>
      rw [stripTrailingWSF, if_neg (by simp [h c (List.mem_cons_self c rest)]),
        ih (fun x hx => h x (List.mem_cons_of_mem c hx)) fuel]

/-- `stripLeadingWS` is the identity on whitespace-free inputs, from any
line-start flag. -/
theorem stripLeadingWSF_id {l : List Char} (h : ∀ c ∈ l, jsWs c = false) :
    ∀ fuel atStart, stripLeadingWSF fuel atStart l = l := by
  induction l with
  | nil => intro fuel atStart; cases fuel <;> rfl
  | cons c rest ih =>
    intro fuel atStart
    cases fuel with
    | zero => rfl
    | succ fuel =>
      rw [stripLeadingWSF, if_neg (by simp [h c (List.mem_cons_self c rest)]),
        ih (fun x hx => h x (List.mem_cons_of_mem c hx)) fuel]

/-- `dropWhile` keeps a list whose head falsifies the predicate. -/
theorem dropWhile_eq_self_of_all {p : Char → Bool} {l : List Char}
    (h : ∀ c ∈ l, p c = false) : l.dropWhile p = l := by
  cases l with
  | nil => rfl
  | cons c rest => rw [List.dropWhile_cons, h c (List.mem_cons_self c rest)]; simp

/-- `jsTrim` is the identity on whitespace-free inputs. -/
theorem jsTrim_id {l : List Char} (h : ∀ c ∈ l, jsWs c = false) : jsTrim l = l := by
  unfold jsTrim
  rw [dropWhile_eq_self_of_all h]
  rw [dropWhile_eq_self_of_all (fun c hc => h c (List.mem_reverse.mp hc))]
  exact List.reverse_reverse l

/-- `formatMathContent` is the identity on inputs free of `'$'` and `'\'`. -/
theorem formatMathContent_id {l : List Char}
    (h : ∀ c ∈ l, c ≠ '$' ∧ c ≠ '\\') : formatMathContent l = l := by
  have hd : ∀ c ∈ l, c ≠ '$' := fun c hc => (h c hc).1
  have hb : ∀ c ∈ l, c ≠ '\\' := fun c hc => (h c hc).2
  cases hl : l with
  | nil => rfl
  | cons x xs =>
    rw [← hl]
    have hne : ¬(l.isEmpty = true) := by rw [hl]; simp
    simp only [formatMathContent]
    rw [if_neg hne]
    rw [show replaceInlineMath l = l from replaceInlineMathF_id hd _]
    rw [show replaceDisplayMath l = l from replaceDisplayMathF_id hd _]
    rw [show ∀ cmd pre post, replaceCmdArg cmd pre post l = l from
      fun cmd pre post => replaceCmdArgF_id cmd pre post hb _]
    rw [show ∀ cmd pre post, replaceCmdArg cmd pre post l = l from
      fun cmd pre post => replaceCmdArgF_id cmd pre post hb _]
    have hlit : ∀ ps rep, replaceLit '\\' ps rep l = l :=
      fun ps rep => replaceLitF_id '\\' ps rep hb _
    rw [hlit, hlit, hlit, hlit, hlit, hlit, hlit, hlit, hlit, hlit,
      hlit, hlit, hlit, hlit, hlit, hlit, hlit, hlit, hlit, hlit]
    rw [show replaceGenericCmd l = l from replaceGenericCmdF_id hb _]
    exact hlit _ _

/-- `cleanAnswerText` is the identity on inputs free of its trigger
characters. -/
theorem cleanAnswerText_id {l : List Char}
    (h : ∀ c ∈ l, c ≠ '|' ∧ c ≠ '#' ∧ c ≠ '*' ∧ c ≠ '\\' ∧ c ≠ '[' ∧ c ≠ '(' ∧
      jsWs c = false) :
    cleanAnswerText l = l := by
  have hbar : ∀ c ∈ l, c ≠ '|' := fun c hc => (h c hc).1
  have hhash : ∀ c ∈ l, c ≠ '#' := fun c hc => (h c hc).2.1
  have hstar : ∀ c ∈ l, c ≠ '*' := fun c hc => (h c hc).2.2.1
  have hbsl : ∀ c ∈ l, c ≠ '\\' := fun c hc => (h c hc).2.2.2.1
  have hbrk : ∀ c ∈ l, c ≠ '[' := fun c hc => (h c hc).2.2.2.2.1
  have hpar : ∀ c ∈ l, c ≠ '(' := fun c hc => (h c hc).2.2.2.2.2.1
  have hws : ∀ c ∈ l, jsWs c = false := fun c hc => (h c hc).2.2.2.2.2.2
  cases hl : l with
  | nil => rfl
  | cons x xs =>
    rw [← hl]
    have hne : ¬(l.isEmpty = true) := by rw [hl]; simp
    simp only [cleanAnswerText]
    rw [if_neg hne]
    rw [show replaceTableSep l = l from replaceTableSepF_id hbar _]
    rw [show replaceTableType l = l from replaceTableTypeF_id hbar _]
    rw [truncateFrom_id '#' _ hhash]
    rw [truncateFrom_id '*' _ hstar]
    rw [show collapseNewlines l = l from collapseNewlinesF_id hws _]
    rw [show stripTrailingWS l = l from stripTrailingWSF_id hws _]
    rw [show stripLeadingWS l = l from stripLeadingWSF_id hws _ _]
    have hlit : ∀ ps rep, replaceLit '\\' ps rep l = l :=
      fun ps rep => replaceLitF_id '\\' ps rep hbsl _
    rw [hlit, hlit, hlit]
    rw [truncateLazyEnd_id '[' _ hbrk]
    rw [truncateLazyEnd_id '(' _ hpar]
    exact jsTrim_id hws

/-- C6 (counterexample): neither cleanup transform is idempotent.
`cleanAnswerText` maps `\\$` to `\$` and then to `$` (the escaped-dollar
rule re-fires on its own output), and `formatMathContent` maps `$$x$$` to
`$<span…>x</span>$` whose outer dollars match the inline rule again on a
second pass. -/
theorem cleanupTransforms_not_idempotent_cex :
    cleanAnswerText (cleanAnswerText "\\\\$".toList) ≠ cleanAnswerText "\\\\$".toList
    ∧ formatMathContent (formatMathContent "$$x$$".toList) ≠
        formatMathContent "$$x$$".toList := by
  exact ⟨by decide, by decide⟩

/-- C6 (amended): the cleanup transforms are not idempotent in general; they
are idempotent (indeed the identity) on every input free of their trigger
characters — `'$'` and `'\'` for `formatMathContent`, and `'|'`, `'#'`,
`'*'`, `'\'`, `'['`, `'('` and whitespace for `cleanAnswerText`. -/
theorem cleanupTransforms_idempotent_on_plain (l : List Char) :
    ((∀ c ∈ l, c ≠ '$' ∧ c ≠ '\\') →
        formatMathContent (formatMathContent l) = formatMathContent l)
    ∧ ((∀ c ∈ l, c ≠ '|' ∧ c ≠ '#' ∧ c ≠ '*' ∧ c ≠ '\\' ∧ c ≠ '[' ∧ c ≠ '(' ∧
          jsWs c = false) →
        cleanAnswerText (cleanAnswerText l) = cleanAnswerText l) := by
  constructor
  · intro h
    rw [formatMathContent_id h, formatMathContent_id h]
  · intro h
    rw [cleanAnswerText_id h, cleanAnswerText_id h]

/-- C6 (witness): the amended statement applied at a concrete plain input. -/
theorem cleanupTransforms_idempotent_on_plain_witness :
    formatMathContent (formatMathContent "abc".toList) = formatMathContent "abc".toList
    ∧ cleanAnswerText (cleanAnswerText "abc".toList) = cleanAnswerText "abc".toList :=
  ⟨(cleanupTransforms_idempotent_on_plain "abc".toList).1 (by decide),
   (cleanupTransforms_idempotent_on_plain "abc".toList).2 (by decide)⟩

/-! ## Paper loader (`loadQuestionPaper` in `src/hooks/useQuestionPaper.tsx`)

`JSON.parse` is out of scope for the embedding; the loader takes the parse
outcome (`Option Json`) alongside the raw body text, so the body text feeds
the HTML heuristic while the parsed value feeds the success path. -/

/-- A parsed JSON value. -/
inductive Json where
  | str (s : String)
  | num (n : Int)
  | bool (b : Bool)
  | null
  | arr (elems : List Json)
  | obj (fields : List (String × Json))

/-- JS truthiness of a JSON value. -/
def jsTruthy : Json → Bool
  | Json.str s => !s.isEmpty
  | Json.num n => n != 0
  | Json.bool b => b
  | Json.null => false
  | Json.arr _ => true
  | Json.obj _ => true

/-- Property access `data.key` (`none` when absent or on a non-object). -/
def getField : Json → String → Option Json
  | Json.obj fields, key => (fields.find? (fun kv => kv.1 == key)).map (fun kv => kv.2)
  | _, _ => none

/-- Field update as by object spread `{...j, key: v}`: replace in place, or
append; spreading a primitive keeps no fields. -/
def setField : Json → String → Json → Json
  | Json.obj fields, key, v =>
    Json.obj (if fields.any (fun kv => kv.1 == key) then
        fields.map (fun kv => if kv.1 == key then (key, v) else kv)
      else fields ++ [(key, v)])
  | _, key, v => Json.obj [(key, v)]

/-- Passing a JSON field value to a string cleanup: falsy values short-circuit
to `''` (the `if (!text) return ''` guard), strings are transformed, and a
truthy non-string makes `.replace` throw (`none`). -/
def jsCleanString (f : List Char → List Char) : Option Json → Option String
  | none => some ""
  | some (Json.str s) => if s.isEmpty then some "" else some (String.mk (f s.toList))
  | some Json.null => some ""
  | some (Json.bool b) => if b then none else some ""
  | some (Json.num n) => if n == 0 then some "" else none
  | some (Json.arr _) => none
  | some (Json.obj _) => none

/-- The per-question cleanup
`{...question, answer: cleanAnswerText(...), question_text: formatQuestionText(...)}`
wrapped in the per-question `try`: a throw keeps the raw question. -/
def cleanQuestionJson (q : Json) : Json :=
  match jsCleanString cleanAnswerText (getField q "answer"),
      jsCleanString formatQuestionText (getField q "question_text") with
  | some a, some t =>
    setField (setField q "answer" (Json.str a)) "question_text" (Json.str t)
  | _, _ => q

/-- The post-parse cleanup block: when `data && data.questions` is truthy,
map the per-question cleanup over `data.questions`; `.map` on a truthy
non-array throws out of the cleanup (`none`). -/
def cleanLoadedData (data : Json) : Option Json :=
  if jsTruthy data &&
      (match getField data "questions" with
        | some q => jsTruthy q
        | none => false) then
    match getField data "questions" with
    | some (Json.arr qs) => some (setField data "questions" (Json.arr (qs.map cleanQuestionJson)))
    | _ => none
  else some data

/-- The outcome of `loadQuestionPaper`, one constructor per exit path of the
source. -/
inductive LoadResult where
  | notFound
  | serverError (status : Nat)
  | invalidFormat
  | jsTypeError
  | success (paper : Json)

/-- Does the body start with `'<'` (HTML heuristic, applied after trim)? -/
def startsWithLt : List Char → Bool
  | '<' :: _ => true
  | _ => false

/-- `loadQuestionPaper`: classify by HTTP status (`response.ok` is
`200 ≤ status ≤ 299`), then the HTML heuristic on the trimmed body, then the
parse outcome, then the cleanup block; the parsed (and cleaned) value is the
loaded paper. -/
def loadQuestionPaper (status : Nat) (body : String) (parsed : Option Json) : LoadResult :=
  if ¬(200 ≤ status ∧ status ≤ 299) then
    if status = 404 then LoadResult.notFound else LoadResult.serverError status
  else if startsWithLt (jsTrim body.toList) then LoadResult.invalidFormat
  else
    match parsed with
    | none => LoadResult.invalidFormat
    | some data =>
      match cleanLoadedData data with
      | some cleaned => LoadResult.success cleaned
      | none => LoadResult.jsTypeError

/-- C4 (counterexample): a 200 response whose body parses to the empty JSON
object — which contains neither `metadata` nor `questions` — loads
successfully; the loader performs no shape validation, so the claimed
`InvalidFormat` outcome does not occur. -/
theorem loadQuestionPaper_no_shape_validation_cex :
    loadQuestionPaper 200 "{}" (some (Json.obj [])) = LoadResult.success (Json.obj [])
    ∧ loadQuestionPaper 200 "{}" (some (Json.obj [])) ≠ LoadResult.invalidFormat := by
  refine ⟨rfl, ?_⟩
  intro h
  rw [show loadQuestionPaper 200 "{}" (some (Json.obj [])) =
    LoadResult.success (Json.obj []) from rfl] at h
  exact LoadResult.noConfusion h

/-- C4 (amended): the loader fails with `NotFound` exactly when the status is
404 and with `ServerError status` for any other non-2xx status; on a 2xx
status it fails with `InvalidFormat` exactly when the trimmed body begins
with `'<'` or the body does not parse as JSON; it never validates the
presence of `metadata`/`questions` — a parsed 2xx body loads successfully
with the per-question cleanup applied (unless its `questions` field is a
truthy non-array, where `data.questions.map` throws). -/
theorem loadQuestionPaper_spec (status : Nat) (body : String) (parsed : Option Json) :
    (loadQuestionPaper status body parsed = LoadResult.notFound ↔ status = 404)
    ∧ (loadQuestionPaper status body parsed = LoadResult.serverError status ↔
        (¬(200 ≤ status ∧ status ≤ 299) ∧ status ≠ 404))
    ∧ ((200 ≤ status ∧ status ≤ 299) →
        (loadQuestionPaper status body parsed = LoadResult.invalidFormat ↔
          (startsWithLt (jsTrim body.toList) = true ∨ parsed = none)))
    ∧ ((200 ≤ status ∧ status ≤ 299) → startsWithLt (jsTrim body.toList) = false →
        ∀ data, parsed = some data →
          loadQuestionPaper status body parsed =
            (match cleanLoadedData data with
              | some cleaned => LoadResult.success cleaned
              | none => LoadResult.jsTypeError)) := by
  by_cases hok : 200 ≤ status ∧ status ≤ 299
  · have h404 : status ≠ 404 := by omega
    refine ⟨?_, ?_, ?_, ?_⟩
    · constructor
      · intro h
        unfold loadQuestionPaper at h
        rw [if_neg (by exact fun hn => hn hok)] at h
        by_cases hlt : startsWithLt (jsTrim body.toList)
        · rw [if_pos hlt] at h
          exact LoadResult.noConfusion h
        · rw [if_neg hlt] at h
          cases parsed with
          | none => exact LoadResult.noConfusion h
          | some data =>
            dsimp at h
            cases hc : cleanLoadedData data with
            | none => rw [hc] at h; exact LoadResult.noConfusion h
            | some cleaned => rw [hc] at h; exact LoadResult.noConfusion h
      · intro h
        exact absurd hok (by omega)
    · constructor
      · intro h
        unfold loadQuestionPaper at h
        rw [if_neg (by exact fun hn => hn hok)] at h
        by_cases hlt : startsWithLt (jsTrim body.toList)
        · rw [if_pos hlt] at h
          exact LoadResult.noConfusion h
        · rw [if_neg hlt] at h
          cases parsed with
          | none => exact LoadResult.noConfusion h
          | some data =>
            dsimp at h
            cases hc : cleanLoadedData data with
            | none => rw [hc] at h; exact LoadResult.noConfusion h
            | some cleaned => rw [hc] at h; exact LoadResult.noConfusion h
      · rintro ⟨hn, _⟩
        exact absurd hok hn
    · intro _
      unfold loadQuestionPaper
      rw [if_neg (by exact fun hn => hn hok)]
      by_cases hlt : startsWithLt (jsTrim body.toList)
      · rw [if_pos hlt]
        exact ⟨fun _ => Or.inl hlt, fun _ => rfl⟩
      · rw [if_neg hlt]
        cases parsed with
        | none => exact ⟨fun _ => Or.inr rfl, fun _ => rfl⟩
        | some data =>
          dsimp
          constructor
          · intro h
            cases hc : cleanLoadedData data with
            | none => rw [hc] at h; exact absurd h (by intro hh; exact LoadResult.noConfusion hh)
            | some cleaned => rw [hc] at h; exact absurd h (by intro hh; exact LoadResult.noConfusion hh)
          · rintro (h | h)
            · exact absurd h hlt
            · exact Option.noConfusion h
    · intro _ hlt data hdata
      unfold loadQuestionPaper
      rw [if_neg (by exact fun hn => hn hok), if_neg (by rw [hlt]; exact fun h => Bool.noConfusion h),
        hdata]
  · refine ⟨?_, ?_, fun hok2 => absurd hok2 hok, fun hok2 => absurd hok2 hok⟩
    · constructor
      · intro h
        unfold loadQuestionPaper at h
        rw [if_pos hok] at h
        by_cases h4 : status = 404
        · exact h4
        · rw [if_neg h4] at h
          exact LoadResult.noConfusion h
      · intro h4
        unfold loadQuestionPaper
        rw [if_pos hok, if_pos h4]
    · constructor
      · intro h
        unfold loadQuestionPaper at h
        rw [if_pos hok] at h
        by_cases h4 : status = 404
        · rw [if_pos h4] at h
          exact absurd h (by intro hh; exact LoadResult.noConfusion hh)
        · exact ⟨hok, h4⟩
      · rintro ⟨_, h4⟩
        unfold loadQuestionPaper
        rw [if_pos hok, if_neg h4]

/-- C4 (witness): the amended statement applied at concrete inputs — a 404
status, a 500 status, an HTML body, an unparseable body, and a successful
minimal load. -/
theorem loadQuestionPaper_spec_witness :
    loadQuestionPaper 404 "" none = LoadResult.notFound
    ∧ loadQuestionPaper 500 "" none = LoadResult.serverError 500
    ∧ loadQuestionPaper 200 "<html>" none = LoadResult.invalidFormat
    ∧ loadQuestionPaper 200 "not json" none = LoadResult.invalidFormat
    ∧ loadQuestionPaper 200 "{}" (some (Json.obj [])) = LoadResult.success (Json.obj []) :=
  ⟨(loadQuestionPaper_spec 404 "" none).1.mpr rfl,
   (loadQuestionPaper_spec 500 "" none).2.1.mpr (by omega),
   ((loadQuestionPaper_spec 200 "<html>" none).2.2.1 (by omega)).mpr (Or.inl (by decide)),
   ((loadQuestionPaper_spec 200 "not json" none).2.2.1 (by omega)).mpr (Or.inr rfl),
   ((loadQuestionPaper_spec 200 "{}" (some (Json.obj []))).2.2.2 (by omega) (by decide)
      (Json.obj []) rfl)⟩

/-! ## Notes store (`useNotesManager` in `src/hooks/useNotes.tsx`) -/

/-- JS object assignment `m[key] = v`: update in place, or append. -/
def setKV {α : Type} (m : List (String × α)) (key : String) (v : α) : List (String × α) :=
  if m.any (fun kv => kv.1 == key) then
    m.map (fun kv => if kv.1 == key then (key, v) else kv)
  else m ++ [(key, v)]

/-- JS object/Map read `m[key]` / `m.get(key)`. -/
def getKV {α : Type} (m : List (String × α)) (key : String) : Option α :=
  (m.find? (fun kv => kv.1 == key)).map (fun kv => kv.2)

/-- `key.includes('::')`. -/
def hasSepChars : List Char → Bool
  | [] => false
  | _ :: [] => false
  | a :: b :: rest => (a == ':' && b == ':') || hasSepChars (b :: rest)

/-- `key.includes('::')` on strings. -/
def hasSep (s : String) : Bool := hasSepChars s.toList

/-- The notes hook state: the React `notes` map and the JSON object persisted
under the `gtu-learn-notes-v1` key. -/
structure NotesState where
  notes : List (String × String)
  storage : List (String × Json)

/-- The migration loop of the load effect: string-valued entries are kept
(namespaced keys) or re-keyed under `default::`; non-string values are
dropped. -/
def migrateNotesAcc (acc : List (String × String)) : List (String × Json) → List (String × String)
  | [] => acc
  | (key, v) :: rest =>
    match v with
    | Json.str s =>
      if hasSep key then migrateNotesAcc (setKV acc key s) rest
      else migrateNotesAcc (setKV acc ("default::" ++ key) s) rest
    | _ => migrateNotesAcc acc rest

/-- The migrated in-memory map built by the load effect. -/
def migrateNotes (stored : List (String × Json)) : List (String × String) :=
  migrateNotesAcc [] stored

/-- The notes load effect: build the migrated map, then write it back only
when some *migrated* key still lacks the `::` separator. -/
def loadNotes (stored : List (String × Json)) : NotesState :=
  let migratedNotes := migrateNotes stored
  { notes := migratedNotes
    storage :=
      if migratedNotes.any (fun kv => !hasSep kv.1) then
        migratedNotes.map (fun kv => (kv.1, Json.str kv.2))
      else stored }

/-- Prefixing with `default::` always produces a key containing `::`. -/
theorem hasSep_default_prefixed (k : String) : hasSep ("default::" ++ k) = true := by
  have : ("default::" ++ k).toList =
      'd' :: 'e' :: 'f' :: 'a' :: 'u' :: 'l' :: 't' :: ':' :: ':' :: k.toList := by
    exact String.data_append "default::" k
  unfold hasSep
  rw [this]
  simp [hasSepChars]

/-- Membership in `setKV` comes from the original map or is the new entry. -/
theorem mem_setKV {α : Type} {m : List (String × α)} {key : String} {v : α}
    {kv : String × α} (h : kv ∈ setKV m key v) : kv ∈ m ∨ kv = (key, v) := by
  unfold setKV at h
  by_cases hc : m.any (fun kv => kv.1 == key)
  · rw [if_pos hc] at h
    rcases List.mem_map.mp h with ⟨x, hx, hxe⟩
    by_cases hxk : x.1 == key
    · rw [if_pos hxk] at hxe
      right
      rw [← hxe]
    · rw [if_neg hxk] at hxe
      left
      rw [← hxe]
      exact hx
  · rw [if_neg hc] at h
    rcases List.mem_append.mp h with hx | hx
    · exact Or.inl hx
    · exact Or.inr (List.mem_singleton.mp hx)

/-- Every key of the migrated map contains the separator. -/
theorem migrateNotesAcc_keys_sep {acc : List (String × String)}
    (hacc : ∀ kv ∈ acc, hasSep kv.1 = true) :
    ∀ stored, ∀ kv ∈ migrateNotesAcc acc stored, hasSep kv.1 = true := by
  intro stored
  induction stored generalizing acc with
  | nil => exact hacc
  | cons e rest ih =>
    rcases e with ⟨key, v⟩
    cases v with
    | str s =>
      by_cases hk : hasSep key
      · intro kv hkv
        have hstep : migrateNotesAcc acc ((key, Json.str s) :: rest) =
            migrateNotesAcc (setKV acc key s) rest := by
          conv_lhs => rw [migrateNotesAcc]
          rw [if_pos hk]
        rw [hstep] at hkv
        refine ih (fun kv2 hkv2 => ?_) kv hkv
        rcases mem_setKV hkv2 with hm | he
        · exact hacc kv2 hm
        · rw [he]; exact hk
      · intro kv hkv
        have hstep : migrateNotesAcc acc ((key, Json.str s) :: rest) =
            migrateNotesAcc (setKV acc ("default::" ++ key) s) rest := by
          conv_lhs => rw [migrateNotesAcc]
          rw [if_neg hk]
        rw [hstep] at hkv
        refine ih (fun kv2 hkv2 => ?_) kv hkv
        rcases mem_setKV hkv2 with hm | he
        · exact hacc kv2 hm
        · rw [he]; exact hasSep_default_prefixed key
    | num n => exact fun kv hkv => ih hacc kv hkv
    | bool b => exact fun kv hkv => ih hacc kv hkv
    | null => exact fun kv hkv => ih hacc kv hkv
    | arr es => exact fun kv hkv => ih hacc kv hkv
    | obj fs => exact fun kv hkv => ih hacc kv hkv

/-- C2 (code bug): the migration never reaches local storage. On the legacy
store `{"Q1_a": "foo"}`, the in-memory map becomes
`{"default::Q1_a": "foo"}`, but the write-back guard tests the *migrated*
keys for a missing `::` — after migration every key contains `::`, so the
guard is always false and the persisted value stays `{"Q1_a": "foo"}`; in
general a load never rewrites the `gtu-learn-notes-v1` value. -/
theorem loadNotes_migration_not_persisted :
    (loadNotes [("Q1_a", Json.str "foo")]).notes = [("default::Q1_a", "foo")]
    ∧ (loadNotes [("Q1_a", Json.str "foo")]).storage = [("Q1_a", Json.str "foo")]
    ∧ ∀ stored : List (String × Json), (loadNotes stored).storage = stored := by
  refine ⟨rfl, rfl, ?_⟩
  intro stored
  unfold loadNotes
  have hall : ∀ kv ∈ migrateNotes stored, hasSep kv.1 = true :=
    migrateNotesAcc_keys_sep (fun kv hkv => absurd hkv (List.not_mem_nil kv)) stored
  have hany : (migrateNotes stored).any (fun kv => !hasSep kv.1) = false := by
    rw [List.any_eq_false]
    intro kv hkv
    rw [hall kv hkv]
    simp
  simp only [hany]
  rfl

/-! ## Revision store (`src/hooks/useRevisionToggle.tsx`) -/

/-- The hook's state: the `Set` (iteration order, no duplicates) and the
JSON array persisted under `revision-questions-{paperId}`. -/
structure RevisionState where
  revisionQuestions : List String
  storage : List String
deriving DecidableEq

/-- `toggleRevision`: flip membership (`Set.delete` keeps the order of the
remaining elements, `Set.add` appends) and persist `Array.from(newSet)`. -/
def toggleRevision (questionId : String) (st : RevisionState) : RevisionState :=
  let newSet :=
    if st.revisionQuestions.contains questionId then
      st.revisionQuestions.filter (fun q => q != questionId)
    else st.revisionQuestions ++ [questionId]
  { revisionQuestions := newSet, storage := newSet }

/-- `isMarkedForRevision`. -/
def isMarkedForRevision (questionId : String) (st : RevisionState) : Bool :=
  st.revisionQuestions.contains questionId

/-- `getRevisionCount`. -/
def getRevisionCount (st : RevisionState) : Nat :=
  st.revisionQuestions.length

/-- `List.contains` agrees with membership under a lawful `BEq`. -/
theorem contains_iff_mem_lawful {α : Type} [BEq α] [LawfulBEq α] {l : List α} {a : α} :
    l.contains a = true ↔ a ∈ l := by
  simp [List.contains, List.elem_iff]

/-- Dropping a present element and re-appending it is a permutation. -/
theorem filter_ne_append_perm {l : List String} {q : String}
    (hq : q ∈ l) (hn : l.Nodup) : (l.filter (fun x => x != q) ++ [q]).Perm l := by
  induction l with
  | nil => cases hq
  | cons a rest ih =>
    rcases List.mem_cons.mp hq with rfl | hmem
    · have hnr : q ∉ rest := (List.nodup_cons.mp hn).1
      have hfa : (q :: rest).filter (fun x => x != q) = rest := by
        rw [List.filter_cons]
        simp only [bne_self_eq_false]
        exact List.filter_eq_self.mpr (fun b hb => by
          simp only [bne_iff_ne]
          intro he
          exact hnr (he ▸ hb))
      rw [hfa]
      exact List.perm_append_singleton q rest
    · have hane : a ≠ q := by
        intro he
        exact (List.nodup_cons.mp hn).1 (he ▸ hmem)
      have hfa : (a :: rest).filter (fun x => x != q) =
          a :: rest.filter (fun x => x != q) := by
        rw [List.filter_cons]
        simp [bne_iff_ne, hane]
      rw [hfa, List.cons_append]
      exact List.Perm.cons a (ih hmem (List.nodup_cons.mp hn).2)

/-- Branch form of `toggleRevision`. -/
theorem toggleRevision_eq (questionId : String) (st : RevisionState) :
    toggleRevision questionId st =
      if st.revisionQuestions.contains questionId then
        { revisionQuestions := st.revisionQuestions.filter (fun q => q != questionId)
          storage := st.revisionQuestions.filter (fun q => q != questionId) }
      else
        { revisionQuestions := st.revisionQuestions ++ [questionId]
          storage := st.revisionQuestions ++ [questionId] } := by
  cases h : st.revisionQuestions.contains questionId
  · simp only [toggleRevision, h, Bool.false_eq_true, if_false]
  · simp only [toggleRevision, h, eq_self_iff_true, if_true]

/-- C9 (counterexample): with the set `{a, q, b}` persisted as
`["a","q","b"]`, toggling `q` twice yields the persisted array
`["a","b","q"]` — same elements, but not the original state. -/
theorem toggleRevision_twice_cex :
    toggleRevision "q" (toggleRevision "q" ⟨["a", "q", "b"], ["a", "q", "b"]⟩) =
      ⟨["a", "b", "q"], ["a", "b", "q"]⟩
    ∧ toggleRevision "q" (toggleRevision "q" ⟨["a", "q", "b"], ["a", "q", "b"]⟩) ≠
        ⟨["a", "q", "b"], ["a", "q", "b"]⟩ := by
  exact ⟨rfl, by decide⟩

/-- C9 (amended): toggling twice restores the set's membership — for every
id the marked status is unchanged, the new set is a permutation of the
original (so the persisted size is unchanged, never negative), and when the
question was not previously marked the state (including the persisted array)
is restored verbatim; when it was marked mid-list, the persisted array keeps
the same elements with the toggled id moved to the end. The persisted array
always mirrors the in-memory set. -/
theorem toggleRevision_twice_spec (questionId : String) (st : RevisionState)
    (hnodup : st.revisionQuestions.Nodup)
    (hsync : st.storage = st.revisionQuestions) :
    (∀ q : String,
        q ∈ (toggleRevision questionId (toggleRevision questionId st)).revisionQuestions ↔
          q ∈ st.revisionQuestions)
    ∧ (toggleRevision questionId (toggleRevision questionId st)).revisionQuestions.Perm
        st.revisionQuestions
    ∧ (toggleRevision questionId (toggleRevision questionId st)).storage.length =
        st.storage.length
    ∧ (questionId ∉ st.revisionQuestions →
        toggleRevision questionId (toggleRevision questionId st) = st)
    ∧ (∀ st' : RevisionState,
        (toggleRevision questionId st').storage =
          (toggleRevision questionId st').revisionQuestions) := by
  by_cases hmem : questionId ∈ st.revisionQuestions
  · have hc : st.revisionQuestions.contains questionId = true :=
      contains_iff_mem_lawful.mpr hmem
    have h1 : toggleRevision questionId st =
        { revisionQuestions := st.revisionQuestions.filter (fun q => q != questionId)
          storage := st.revisionQuestions.filter (fun q => q != questionId) } := by
      rw [toggleRevision_eq, if_pos hc]
    have hFm : questionId ∉ st.revisionQuestions.filter (fun q => q != questionId) := by
      intro hin
      have := List.of_mem_filter hin
      simp at this
    have hFc : (st.revisionQuestions.filter (fun q => q != questionId)).contains questionId
        = false := by
      cases h2 : (st.revisionQuestions.filter (fun q => q != questionId)).contains questionId
      · rfl
      · exact absurd (contains_iff_mem_lawful.mp h2) hFm
    have h2 : toggleRevision questionId (toggleRevision questionId st) =
        { revisionQuestions :=
            st.revisionQuestions.filter (fun q => q != questionId) ++ [questionId]
          storage := st.revisionQuestions.filter (fun q => q != questionId) ++ [questionId] } := by
      rw [h1, toggleRevision_eq]
      dsimp only
      rw [if_neg (by rw [hFc]; exact fun h => Bool.noConfusion h)]
    have hperm := filter_ne_append_perm hmem hnodup
    rw [h2]
    dsimp only
    refine ⟨fun q => hperm.mem_iff, hperm, ?_, ?_, fun st' => rfl⟩
    · rw [hsync]
      exact hperm.length_eq
    · intro hnot
      exact absurd hmem hnot
  · have hc : st.revisionQuestions.contains questionId = false := by
      cases h2 : st.revisionQuestions.contains questionId
      · rfl
      · exact absurd (contains_iff_mem_lawful.mp h2) hmem
    have h1 : toggleRevision questionId st =
        { revisionQuestions := st.revisionQuestions ++ [questionId]
          storage := st.revisionQuestions ++ [questionId] } := by
      rw [toggleRevision_eq, if_neg (by rw [hc]; exact fun h => Bool.noConfusion h)]
    have hin : (st.revisionQuestions ++ [questionId]).contains questionId = true :=
      contains_iff_mem_lawful.mpr (List.mem_append.mpr (Or.inr (List.mem_singleton.mpr rfl)))
    have hfa : (st.revisionQuestions ++ [questionId]).filter (fun q => q != questionId) =
        st.revisionQuestions := by
      rw [List.filter_append]
      have hx1 : st.revisionQuestions.filter (fun q => q != questionId) =
          st.revisionQuestions :=
        List.filter_eq_self.mpr (fun b hb => by
          simp only [bne_iff_ne]
          intro he
          exact hmem (he ▸ hb))
      have hx2 : [questionId].filter (fun q => q != questionId) = [] := by simp
      rw [hx1, hx2, List.append_nil]
    have heta : ({ revisionQuestions := st.revisionQuestions, storage := st.storage } :
        RevisionState) = st := rfl
    rw [hsync] at heta
    have h2 : toggleRevision questionId (toggleRevision questionId st) = st := by
      rw [h1, toggleRevision_eq]
      dsimp only
      rw [if_pos hin, hfa]
      exact heta
    rw [h2]
    exact ⟨fun q => Iff.rfl, List.Perm.refl _, rfl, fun _ => rfl, fun st' => rfl⟩

/-- C9 (witness): the amended statement applied at a concrete state. -/
theorem toggleRevision_twice_spec_witness :
    toggleRevision "z" (toggleRevision "z" ⟨["a"], ["a"]⟩) = ⟨["a"], ["a"]⟩ :=
  (toggleRevision_twice_spec "z" ⟨["a"], ["a"]⟩ (by decide) rfl).2.2.2.1 (by decide)

/-! ## Question model (`src/types.ts`) -/

/-- `MemoryPlace`. -/
structure MemoryPlace where
  place_number : Nat
  location : String
  visualization : String
  how_to_place : String
deriving DecidableEq

/-- The `story_method` part of a memory technique. -/
structure StoryMethod where
  story : String
  explanation : String
deriving DecidableEq

/-- The `memory_palace` part of a memory technique. -/
structure MemoryPalace where
  total_places : Nat
  places : List MemoryPlace
deriving DecidableEq

/-- `MemoryTechnique`. -/
structure MemoryTechnique where
  story_method : Option StoryMethod := none
  memory_palace : Option MemoryPalace := none
deriving DecidableEq

/-- `Question` (`src/types.ts`); marks is a positive integer per the data
model, modelled as `Nat` with positivity assumed where division demands
it. -/
structure Question where
  question_no : String
  sub_question_no : String
  question_text : String
  diagram_representation : Option String := none
  marks : Nat
  tags : List String := []
  answer : String := ""
  memory_techniques : Option MemoryTechnique := none
  rating : Option Nat := none
deriving DecidableEq

/-- The natural key `"{question_no}_{sub_question_no}"`. -/
def questionIdOf (question : Question) : String :=
  question.question_no ++ "_" ++ question.sub_question_no

/-! ## Progress tracker (`src/hooks/useProgressTracking.tsx`) -/

/-- `sessionType ∈ {study, quiz, revision}`. -/
inductive SessionType where
  | study
  | quiz
  | revision
deriving DecidableEq

/-- One `StudySession` record; times in ms, duration in seconds. -/
structure StudySession where
  startTime : Nat
  endTime : Option Nat := none
  duration : Nat
  sessionType : SessionType
deriving DecidableEq

/-- One `QuestionProgress` record. -/
structure QuestionProgress where
  questionId : String
  paperId : String
  completed : Bool
  completedAt : Option Nat := none
  timeSpent : Nat
  reviewCount : Nat
  lastStudied : Option Nat := none
  confidenceLevel : Nat
  studySessions : List StudySession
deriving DecidableEq

/-- The `activeSession` record. -/
structure ActiveSession where
  questionId : String
  paperId : String
  startTime : Nat
  sessionType : SessionType
deriving DecidableEq

/-- The hook's state: the in-memory `questionProgress` map, the object
persisted under `progress-tracking-global`, and the active session. -/
structure ProgressState where
  questionProgress : List (String × QuestionProgress)
  storage : List (String × QuestionProgress)
  activeSession : Option ActiveSession := none

/-- `defaultQuestionProgress` merged with the identifying fields. -/
def defaultProgress (questionId paperId : String) : QuestionProgress :=
  { questionId := questionId
    paperId := paperId
    completed := false
    timeSpent := 0
    reviewCount := 0
    confidenceLevel := 0
    studySessions := [] }

/-- `createGlobalKey`: `` `${currentPaperId || paperId}::${questionId}` ``
(an empty `currentPaperId` is falsy and falls back to the hook's paper). -/
def createGlobalKey (paperId questionId : String) (currentPaperId : Option String) : String :=
  (match currentPaperId with
    | some p => if p.isEmpty then paperId else p
    | none => paperId) ++ "::" ++ questionId

/-- `getQuestionProgress`: look the global key up, defaulting to a fresh
record. -/
def getQuestionProgress (paperId : String) (m : List (String × QuestionProgress))
    (questionId : String) : QuestionProgress :=
  (getKV m (createGlobalKey paperId questionId none)).getD (defaultProgress questionId paperId)

/-- `updateQuestionProgress`: merge `updates` over the current record, force
the identifying fields, store under the global key, and persist. `updates`
is modelled as an arbitrary record override (a superset of the JS partial
spread). -/
def updateQuestionProgress (paperId questionId : String)
    (updates : QuestionProgress → QuestionProgress) (st : ProgressState) : ProgressState :=
  let globalKey := createGlobalKey paperId questionId none
  let current := (getKV st.questionProgress globalKey).getD (defaultProgress questionId paperId)
  let updated := { updates current with questionId := questionId, paperId := paperId }
  let newProgress := setKV st.questionProgress globalKey updated
  { st with questionProgress := newProgress, storage := newProgress }

/-- `markCompleted`. -/
def markCompleted (paperId questionId : String) (now : Nat) (st : ProgressState) : ProgressState :=
  updateQuestionProgress paperId questionId
    (fun c => { c with completed := true, completedAt := some now }) st

/-- `markIncomplete`. -/
def markIncomplete (paperId questionId : String) (st : ProgressState) : ProgressState :=
  updateQuestionProgress paperId questionId
    (fun c => { c with completed := false, completedAt := none }) st

/-- `updateConfidence`. -/
def updateConfidence (paperId questionId : String) (confidence : Nat)
    (st : ProgressState) : ProgressState :=
  updateQuestionProgress paperId questionId
    (fun c => { c with confidenceLevel := confidence }) st

/-- `startStudySession`: open the active session and bump review count and
last-studied on the stored record. -/
def startStudySession (paperId questionId : String) (sessionType : SessionType)
    (now : Nat) (st : ProgressState) : ProgressState :=
  let startTime := now
  let globalKey := createGlobalKey paperId questionId none
  let current := (getKV st.questionProgress globalKey).getD (defaultProgress questionId paperId)
  let updated := { current with
    reviewCount := current.reviewCount + 1
    lastStudied := some startTime
    questionId := questionId
    paperId := paperId }
  let newProgress := setKV st.questionProgress globalKey updated
  { questionProgress := newProgress
    storage := newProgress
    activeSession := some
      { questionId := questionId, paperId := paperId
        startTime := startTime, sessionType := sessionType } }

/-- `endStudySession`: when the active session matches the current paper and
question, close it, fold its duration into the stored record, and clear the
active session; otherwise do nothing. -/
def endStudySession (paperId questionId : String) (now : Nat)
    (st : ProgressState) : ProgressState :=
  match st.activeSession with
  | some s =>
    if s.questionId == questionId && s.paperId == paperId then
      let duration := jsRoundDiv (now - s.startTime) 1000
      let newSession : StudySession :=
        { startTime := s.startTime
          endTime := some now
          duration := duration
          sessionType := s.sessionType }
      let globalKey := createGlobalKey paperId questionId none
      let current := (getKV st.questionProgress globalKey).getD (defaultProgress questionId paperId)
      let updated := { current with
        timeSpent := current.timeSpent + duration
        studySessions := current.studySessions ++ [newSession]
        questionId := questionId
        paperId := paperId }
      let newProgress := setKV st.questionProgress globalKey updated
      { questionProgress := newProgress, storage := newProgress, activeSession := none }
    else st
  | none => st

/-- The C10 invariant, executable: every stored record's key is its own
`paperId`/`questionId` pair joined by `::`. -/
def progressKeyInv (m : List (String × QuestionProgress)) : Bool :=
  m.all (fun kv => kv.1 == kv.2.paperId ++ "::" ++ kv.2.questionId)

/-- `setKV` preserves the key invariant when the new entry satisfies it. -/
theorem progressKeyInv_setKV {m : List (String × QuestionProgress)} {key : String}
    {v : QuestionProgress} (hm : progressKeyInv m = true)
    (hv : key = v.paperId ++ "::" ++ v.questionId) :
    progressKeyInv (setKV m key v) = true := by
  rw [progressKeyInv, List.all_eq_true]
  intro kv hkv
  rcases mem_setKV hkv with h | h
  · rw [progressKeyInv, List.all_eq_true] at hm
    exact hm kv h
  · rw [h]
    simp only [beq_iff_eq]
    exact hv

/-- C10: every mutator of the progress store — `updateQuestionProgress` (and
with it `markCompleted`, `markIncomplete`, `updateConfidence`),
`startStudySession` and `endStudySession` — preserves the invariant that the
record stored under key `"{paperId}::{questionId}"` carries exactly that
paper id and question id in its own fields, on both the in-memory map and
the persisted `progress-tracking-global` value. -/
theorem progress_mutators_preserve_key_inv (paperId questionId : String)
    (updates : QuestionProgress → QuestionProgress) (sessionType : SessionType)
    (confidence now : Nat) (st : ProgressState)
    (hinv : progressKeyInv st.questionProgress = true)
    (hinvs : progressKeyInv st.storage = true) :
    (progressKeyInv (updateQuestionProgress paperId questionId updates st).questionProgress = true
      ∧ progressKeyInv (updateQuestionProgress paperId questionId updates st).storage = true)
    ∧ (progressKeyInv (markCompleted paperId questionId now st).questionProgress = true
      ∧ progressKeyInv (markCompleted paperId questionId now st).storage = true)
    ∧ (progressKeyInv (markIncomplete paperId questionId st).questionProgress = true
      ∧ progressKeyInv (markIncomplete paperId questionId st).storage = true)
    ∧ (progressKeyInv (updateConfidence paperId questionId confidence st).questionProgress = true
      ∧ progressKeyInv (updateConfidence paperId questionId confidence st).storage = true)
    ∧ (progressKeyInv (startStudySession paperId questionId sessionType now st).questionProgress
        = true
      ∧ progressKeyInv (startStudySession paperId questionId sessionType now st).storage = true)
    ∧ (progressKeyInv (endStudySession paperId questionId now st).questionProgress = true
      ∧ progressKeyInv (endStudySession paperId questionId now st).storage = true) := by
  have hkey : createGlobalKey paperId questionId none = paperId ++ "::" ++ questionId := rfl
  have hupd : ∀ f : QuestionProgress → QuestionProgress,
      progressKeyInv (updateQuestionProgress paperId questionId f st).questionProgress = true
        ∧ progressKeyInv (updateQuestionProgress paperId questionId f st).storage = true := by
    intro f
    refine ⟨?_, ?_⟩ <;>
      exact progressKeyInv_setKV hinv hkey
  refine ⟨hupd updates, hupd _, hupd _, hupd _, ?_, ?_⟩
  · constructor <;> exact progressKeyInv_setKV hinv hkey
  · unfold endStudySession
    cases st.activeSession with
    | none => exact ⟨hinv, hinvs⟩
    | some s =>
      dsimp only
      by_cases hc : (s.questionId == questionId && s.paperId == paperId) = true
      · rw [if_pos hc]
        constructor <;> exact progressKeyInv_setKV hinv hkey
      · rw [if_neg hc]
        exact ⟨hinv, hinvs⟩

/-- C10 (witness): the statement applied at a concrete state. -/
theorem progress_mutators_preserve_key_inv_witness :
    progressKeyInv (startStudySession "paper.json" "1_a" SessionType.study 1000
      ⟨[], [], none⟩).questionProgress = true :=
  (progress_mutators_preserve_key_inv "paper.json" "1_a" id SessionType.study 3 1000
      ⟨[], [], none⟩ rfl rfl).2.2.2.2.1.1

/-! ### Exam readiness (`calculateExamReadiness`) -/

/-- `progress.lastStudied && Date.now() - progress.lastStudied.getTime() <
7 * 24 * 60 * 60 * 1000`. -/
def studiedWithin7Days (now : Nat) (progress : QuestionProgress) : Bool :=
  match progress.lastStudied with
  | some t => decide (now - t < 7 * 24 * 60 * 60 * 1000)
  | none => false

/-- The marks-weighted readiness points of one question: marks for
completed, marks for confidence ≥ 4, marks for studied within 7 days. -/
def questionReadinessPoints (paperId : String) (m : List (String × QuestionProgress))
    (now : Nat) (question : Question) : Nat :=
  (if (getQuestionProgress paperId m (questionIdOf question)).completed then question.marks
    else 0)
  + (if 4 ≤ (getQuestionProgress paperId m (questionIdOf question)).confidenceLevel then
      question.marks else 0)
  + (if studiedWithin7Days now (getQuestionProgress paperId m (questionIdOf question)) then
      question.marks else 0)

/-- The `totalScore` accumulator of `calculateExamReadiness`. -/
def readinessTotalScore (paperId : String) (m : List (String × QuestionProgress))
    (now : Nat) (allQuestions : List Question) : Nat :=
  (allQuestions.map (fun question => questionReadinessPoints paperId m now question)).sum

/-- The `maxScore` accumulator of `calculateExamReadiness` (marks × 3 per
question). -/
def readinessMaxScore (allQuestions : List Question) : Nat :=
  (allQuestions.map (fun question => question.marks * 3)).sum

/-- `calculateExamReadiness`: 0 on an empty question list, otherwise
`Math.round((totalScore / maxScore) * 100)`. (When every question has zero
marks the JS quotient is `NaN`; the data model guarantees positive marks and
the theorems assume it.) -/
def calculateExamReadiness (paperId : String) (allQuestions : List Question)
    (m : List (String × QuestionProgress)) (now : Nat) : Nat :=
  if allQuestions.length = 0 then 0
  else jsRoundDiv (readinessTotalScore paperId m now allQuestions * 100)
    (readinessMaxScore allQuestions)

/-- A non-empty list of positive-marks questions has a positive maximum
score. -/
theorem readinessMaxScore_pos {allQuestions : List Question}
    (hne : allQuestions ≠ []) (hpos : ∀ q ∈ allQuestions, 0 < q.marks) :
    0 < readinessMaxScore allQuestions := by
  cases allQuestions with
  | nil => exact absurd rfl hne
  | cons q rest =>
    have hq := hpos q (List.mem_cons_self q rest)
    rw [readinessMaxScore, List.map_cons, List.sum_cons]
    omega

/-- C8: `calculateExamReadiness` returns
`round(100 × totalScore / maxScore)` where each question contributes up to 3
marks-weighted points and `maxScore` is 3 × marks per question; it is 0 when
no question has any stored progress, and 100 when, for a non-empty question
list (with positive marks), every question is completed with confidence ≥ 4
and studied within the last 7 days. -/
theorem calculateExamReadiness_spec (paperId : String) (allQuestions : List Question)
    (m : List (String × QuestionProgress)) (now : Nat) :
    ((∀ q ∈ allQuestions, getKV m (createGlobalKey paperId (questionIdOf q) none) = none) →
        calculateExamReadiness paperId allQuestions m now = 0)
    ∧ (allQuestions ≠ [] → (∀ q ∈ allQuestions, 0 < q.marks) →
        (∀ q ∈ allQuestions,
            (getQuestionProgress paperId m (questionIdOf q)).completed = true ∧
            4 ≤ (getQuestionProgress paperId m (questionIdOf q)).confidenceLevel ∧
            studiedWithin7Days now (getQuestionProgress paperId m (questionIdOf q)) = true) →
        calculateExamReadiness paperId allQuestions m now = 100)
    ∧ (allQuestions ≠ [] → (∀ q ∈ allQuestions, 0 < q.marks) →
        (calculateExamReadiness paperId allQuestions m now : ℤ) =
          ⌊100 * (readinessTotalScore paperId m now allQuestions : ℚ) /
              (readinessMaxScore allQuestions : ℚ) + 1 / 2⌋) := by
  refine ⟨?_, ?_, ?_⟩
  · intro hnone
    unfold calculateExamReadiness
    by_cases hlen : allQuestions.length = 0
    · rw [if_pos hlen]
    · rw [if_neg hlen]
      have htot : readinessTotalScore paperId m now allQuestions = 0 := by
        unfold readinessTotalScore
        apply List.sum_eq_zero
        intro x hx
        rcases List.mem_map.mp hx with ⟨q, hq, rfl⟩
        have hdef : getQuestionProgress paperId m (questionIdOf q) =
            defaultProgress (questionIdOf q) paperId := by
          unfold getQuestionProgress
          rw [hnone q hq]
          rfl
        unfold questionReadinessPoints
        rw [hdef]
        rfl
      rw [htot]
      by_cases hm0 : readinessMaxScore allQuestions = 0
      · rw [hm0]
        rfl
      · unfold jsRoundDiv
        have he : 2 * (0 * 100) + readinessMaxScore allQuestions =
            readinessMaxScore allQuestions := by omega
        rw [he]
        exact Nat.div_eq_of_lt (by omega)
  · intro hne hpos hfull
    have hmax := readinessMaxScore_pos hne hpos
    have hpts : ∀ q ∈ allQuestions, questionReadinessPoints paperId m now q = q.marks * 3 := by
      intro q hq
      obtain ⟨hcq, hconf, hrec⟩ := hfull q hq
      unfold questionReadinessPoints
      rw [if_pos hcq, if_pos hconf, if_pos hrec]
      omega
    have htot : readinessTotalScore paperId m now allQuestions =
        readinessMaxScore allQuestions := by
      unfold readinessTotalScore readinessMaxScore
      rw [List.map_congr_left hpts]
    unfold calculateExamReadiness
    rw [if_neg (by intro h; exact hne (List.length_eq_zero.mp h)), htot]
    unfold jsRoundDiv
    have he : 2 * (readinessMaxScore allQuestions * 100) + readinessMaxScore allQuestions =
        201 * readinessMaxScore allQuestions := by ring
    rw [he]
    exact Nat.div_eq_of_lt_le (by omega) (by omega)
  · intro hne hpos
    have hmax := readinessMaxScore_pos hne hpos
    unfold calculateExamReadiness
    rw [if_neg (by intro h; exact hne (List.length_eq_zero.mp h))]
    rw [jsRoundDiv_eq_floor _ _ hmax]
    congr 1
    push_cast
    ring

/-- A concrete fully-studied progress record. -/
def fullProgress1a : QuestionProgress :=
  { questionId := "1_a"
    paperId := "p"
    completed := true
    completedAt := some 500
    timeSpent := 60
    reviewCount := 2
    lastStudied := some 0
    confidenceLevel := 4
    studySessions := [] }

/-- A concrete 5-mark question. -/
def question1a : Question :=
  { question_no := "1"
    sub_question_no := "a"
    question_text := "What is X?"
    marks := 5
    tags := ["tagA"]
    answer := "X is Y" }

/-- C8 (witness): the statement applied at concrete inputs — an empty store
gives 0, a fully studied single-question store gives 100. -/
theorem calculateExamReadiness_spec_witness :
    calculateExamReadiness "p" [question1a] [] 1000 = 0
    ∧ calculateExamReadiness "p" [question1a] [("p::1_a", fullProgress1a)] 1000 = 100 :=
  ⟨(calculateExamReadiness_spec "p" [question1a] [] 1000).1 (by decide),
   (calculateExamReadiness_spec "p" [question1a] [("p::1_a", fullProgress1a)] 1000).2.1
      (by decide) (by decide) (by decide)⟩

/-! ### Study streak (`calculateStreak`)

`d.setHours(0, 0, 0, 0)` normalizes a timestamp to its day's midnight; the
embedding floors to UTC midnights (`oneDayMs * (t / oneDayMs)`), which
matches the source up to the fixed timezone offset. -/

/-- `24 * 60 * 60 * 1000`. -/
def oneDayMs : Nat := 24 * 60 * 60 * 1000

/-- Normalize a timestamp to its day's midnight. -/
def floorDay (t : Nat) : Nat := oneDayMs * (t / oneDayMs)

/-- The `indexOf`-based unique filter: keep the first occurrence of each
value. -/
def dedupKeepFirstAux (seen : List Nat) : List Nat → List Nat
  | [] => []
  | x :: rest =>
    if seen.contains x then dedupKeepFirstAux seen rest
    else x :: dedupKeepFirstAux (x :: seen) rest

/-- `filter((date, index, self) => self.indexOf(date) === index)`. -/
def dedupKeepFirst (l : List Nat) : List Nat := dedupKeepFirstAux [] l

/-- Insertion step of `sort((a, b) => b - a)`. -/
def insertDesc (x : Nat) : List Nat → List Nat
  | [] => [x]
  | y :: rest => if x ≥ y then x :: y :: rest else y :: insertDesc x rest

/-- `sort((a, b) => b - a)`: sort descending. -/
def sortDesc : List Nat → List Nat
  | [] => []
  | x :: rest => insertDesc x (sortDesc rest)

/-- The `for` loop of `calculateStreak`: count how many further dates follow
their predecessor at exactly one day's distance, stopping at the first
gap. -/
def streakRun (prev : Nat) : List Nat → Nat
  | [] => 0
  | d :: rest => if prev - d = oneDayMs then 1 + streakRun d rest else 0

/-- `calculateStreak`: normalize the last-studied dates to days, dedupe,
sort most-recent-first, count the consecutive run from the head, and zero
the streak when the head is neither today nor yesterday. -/
def calculateStreak (now : Nat) (values : List QuestionProgress) : Nat :=
  match sortDesc (dedupKeepFirst
      ((values.filterMap (fun p => p.lastStudied)).map floorDay)) with
  | [] => 0
  | d0 :: rest =>
    let streak := 1 + streakRun d0 rest
    if d0 ≠ floorDay now ∧ d0 ≠ floorDay now - oneDayMs then 0 else streak

/-- `contains` is false for a non-member (lawful `BEq`). -/
theorem contains_eq_false_of_not_mem {α : Type} [BEq α] [LawfulBEq α] {l : List α} {x : α}
    (h : x ∉ l) : l.contains x = false := by
  cases hc : l.contains x
  · rfl
  · exact absurd (contains_iff_mem_lawful.mp hc) h

/-- Membership through the unique filter. -/
theorem mem_dedupKeepFirstAux {x : Nat} : ∀ {l seen : List Nat},
    (x ∈ dedupKeepFirstAux seen l ↔ (x ∈ l ∧ x ∉ seen)) := by
  intro l
  induction l with
  | nil => intro seen; simp [dedupKeepFirstAux]
  | cons y rest ih =>
    intro seen
    rw [dedupKeepFirstAux]
    by_cases hy : seen.contains y = true
    · rw [if_pos hy]
      have hymem : y ∈ seen := contains_iff_mem_lawful.mp hy
      rw [ih]
      constructor
      · rintro ⟨hr, hs⟩
        exact ⟨List.mem_cons_of_mem y hr, hs⟩
      · rintro ⟨hyr, hs⟩
        rcases List.mem_cons.mp hyr with rfl | hr
        · exact absurd hymem hs
        · exact ⟨hr, hs⟩
    · rw [if_neg hy]
      have hynmem : y ∉ seen := fun hc => hy (contains_iff_mem_lawful.mpr hc)
      constructor
      · intro hx
        rcases List.mem_cons.mp hx with rfl | hr
        · exact ⟨List.mem_cons_self x rest, hynmem⟩
        · obtain ⟨hrr, hss⟩ := ih.mp hr
          exact ⟨List.mem_cons_of_mem y hrr, fun hc => hss (List.mem_cons_of_mem y hc)⟩
      · rintro ⟨hxl, hs⟩
        rcases List.mem_cons.mp hxl with rfl | hr
        · exact List.mem_cons_self x _
        · by_cases hxy : x = y
          · subst hxy
            exact List.mem_cons_self x _
          · refine List.mem_cons_of_mem y (ih.mpr ⟨hr, fun hc => ?_⟩)
            rcases List.mem_cons.mp hc with he | hsx
            · exact hxy he
            · exact hs hsx

/-- The unique filter preserves membership. -/
theorem mem_dedupKeepFirst {x : Nat} {l : List Nat} : x ∈ dedupKeepFirst l ↔ x ∈ l := by
  unfold dedupKeepFirst
  rw [mem_dedupKeepFirstAux]
  simp

/-- Membership through `insertDesc`. -/
theorem mem_insertDesc {x y : Nat} : ∀ {l : List Nat},
    (y ∈ insertDesc x l ↔ y = x ∨ y ∈ l) := by
  intro l
  induction l with
  | nil => simp [insertDesc]
  | cons a rest ih =>
    rw [insertDesc]
    by_cases h : x ≥ a
    · rw [if_pos h]
      simp [List.mem_cons]
    · rw [if_neg h]
      simp only [List.mem_cons, ih]
      tauto

/-- `sortDesc` preserves membership. -/
theorem mem_sortDesc {y : Nat} : ∀ {l : List Nat}, y ∈ sortDesc l ↔ y ∈ l := by
  intro l
  induction l with
  | nil => simp [sortDesc]
  | cons a rest ih =>
    rw [sortDesc, mem_insertDesc]
    simp only [List.mem_cons, ih]

/-- The head of the descending sort is the maximum. -/
theorem sortDesc_head_max : ∀ {l : List Nat} {h : Nat} {t : List Nat},
    sortDesc l = h :: t → h ∈ l ∧ ∀ x ∈ l, x ≤ h := by
  intro l
  induction l with
  | nil =>
    intro h t he
    exact absurd he (by simp [sortDesc])
  | cons a rest ih =>
    intro h t he
    rw [sortDesc] at he
    cases hs : sortDesc rest with
    | nil =>
      rw [hs] at he
      rw [show insertDesc a [] = [a] from rfl] at he
      injection he with he1 he2
      subst he1
      refine ⟨List.mem_cons_self a rest, ?_⟩
      intro x hx
      rcases List.mem_cons.mp hx with rfl | hxr
      · exact Nat.le_refl x
      · exact absurd (mem_sortDesc.mpr hxr) (by rw [hs]; simp)
    | cons b t' =>
      rw [hs] at he
      obtain ⟨hbmem, hbmax⟩ := ih hs
      rw [insertDesc] at he
      by_cases hab : a ≥ b
      · rw [if_pos hab] at he
        injection he with he1 he2
        subst he1
        refine ⟨List.mem_cons_self a rest, ?_⟩
        intro x hx
        rcases List.mem_cons.mp hx with rfl | hxr
        · exact Nat.le_refl x
        · exact Nat.le_trans (hbmax x hxr) hab
      · rw [if_neg hab] at he
        injection he with he1 he2
        subst he1
        refine ⟨List.mem_cons_of_mem a hbmem, ?_⟩
        intro x hx
        rcases List.mem_cons.mp hx with rfl | hxr
        · exact Nat.le_of_lt (Nat.lt_of_not_le hab)
        · exact hbmax x hxr

/-- Step equation: an unseen head is kept. -/
theorem dedupAux_cons_not_seen {seen : List Nat} {x : Nat} {l : List Nat}
    (h : seen.contains x = false) :
    dedupKeepFirstAux seen (x :: l) = x :: dedupKeepFirstAux (x :: seen) l := by
  rw [dedupKeepFirstAux, if_neg (by rw [h]; exact fun hh => Bool.noConfusion hh)]

/-- Step equation: a seen head is dropped. -/
theorem dedupAux_cons_seen {seen : List Nat} {x : Nat} {l : List Nat}
    (h : seen.contains x = true) :
    dedupKeepFirstAux seen (x :: l) = dedupKeepFirstAux seen l := by
  rw [dedupKeepFirstAux, if_pos h]

/-- C7: the streak walks backwards from the most recent distinct study day
counting consecutive days, and is 0 whenever the most recent study day is
neither today nor yesterday; study events on today, yesterday and the day
before (with a duplicate on today) yield streak 3. -/
theorem calculateStreak_spec (now : Nat) :
    (∀ (values : List QuestionProgress) (m : Nat),
        m ∈ (values.filterMap (fun p => p.lastStudied)).map floorDay →
        (∀ d ∈ (values.filterMap (fun p => p.lastStudied)).map floorDay, d ≤ m) →
        m ≠ floorDay now → m ≠ floorDay now - oneDayMs →
        calculateStreak now values = 0)
    ∧ (∀ (t0 t1 t2 t3 : Nat) (p0 p1 p2 p3 : QuestionProgress),
        p0.lastStudied = some t0 → p1.lastStudied = some t1 →
        p2.lastStudied = some t2 → p3.lastStudied = some t3 →
        floorDay t0 = floorDay now → floorDay t1 = floorDay now - oneDayMs →
        floorDay t2 = floorDay now - 2 * oneDayMs → floorDay t3 = floorDay now →
        2 * oneDayMs ≤ floorDay now →
        calculateStreak now [p0, p1, p2, p3] = 3) := by
  constructor
  · intro values m hm hmax hne1 hne2
    unfold calculateStreak
    cases hsort : sortDesc (dedupKeepFirst
        ((values.filterMap (fun p => p.lastStudied)).map floorDay)) with
    | nil => rfl
    | cons d0 rest =>
      obtain ⟨hmem0, hmax0⟩ := sortDesc_head_max hsort
      have hle1 : d0 ≤ m := hmax d0 (mem_dedupKeepFirst.mp hmem0)
      have hle2 : m ≤ d0 := hmax0 m (mem_dedupKeepFirst.mpr hm)
      have hd0 : d0 = m := Nat.le_antisymm hle1 hle2
      dsimp only
      rw [if_pos ⟨hd0 ▸ hne1, hd0 ▸ hne2⟩]
  · intro t0 t1 t2 t3 p0 p1 p2 p3 h0 h1 h2 h3 hf0 hf1 hf2 hf3 hge
    have hone : oneDayMs = 86400000 := rfl
    have hfm : (([p0, p1, p2, p3].filterMap (fun p => p.lastStudied)).map floorDay) =
        [floorDay now, floorDay now - oneDayMs, floorDay now - 2 * oneDayMs,
          floorDay now] := by
      rw [show [p0, p1, p2, p3].filterMap (fun p => p.lastStudied) = [t0, t1, t2, t3] by
        simp [List.filterMap_cons, h0, h1, h2, h3]]
      simp [hf0, hf1, hf2, hf3]
    have hd : dedupKeepFirst [floorDay now, floorDay now - oneDayMs,
        floorDay now - 2 * oneDayMs, floorDay now] =
        [floorDay now, floorDay now - oneDayMs, floorDay now - 2 * oneDayMs] := by
      unfold dedupKeepFirst
      rw [dedupAux_cons_not_seen
          (show ([] : List Nat).contains (floorDay now) = false from rfl),
        dedupAux_cons_not_seen (contains_eq_false_of_not_mem (by simp; omega)),
        dedupAux_cons_not_seen (contains_eq_false_of_not_mem (by simp; omega)),
        dedupAux_cons_seen (contains_iff_mem_lawful.mpr (by simp))]
      rfl
    have hsorted : sortDesc [floorDay now, floorDay now - oneDayMs,
        floorDay now - 2 * oneDayMs] =
        [floorDay now, floorDay now - oneDayMs, floorDay now - 2 * oneDayMs] := by
      simp only [sortDesc]
      rw [show insertDesc (floorDay now - 2 * oneDayMs) [] =
        [floorDay now - 2 * oneDayMs] from rfl]
      rw [insertDesc, if_pos (by omega)]
      rw [insertDesc, if_pos (by omega)]
    have hrun : streakRun (floorDay now)
        [floorDay now - oneDayMs, floorDay now - 2 * oneDayMs] = 2 := by
      rw [streakRun, if_pos (by omega), streakRun, if_pos (by omega)]
      rfl
    unfold calculateStreak
    rw [hfm, hd, hsorted]
    dsimp only
    rw [if_neg (by intro hcon; exact hcon.1 rfl), hrun]

/-- C7 (witness): the statement applied at concrete inputs — four study
events on three consecutive days (today duplicated) yield streak 3. -/
theorem calculateStreak_spec_witness :
    calculateStreak (2 * 86400000 + 3600000)
      [{ defaultProgress "1_a" "p" with lastStudied := some (2 * 86400000 + 3600000) },
       { defaultProgress "1_b" "p" with lastStudied := some (86400000 + 7200000) },
       { defaultProgress "2_a" "p" with lastStudied := some 5000 },
       { defaultProgress "2_b" "p" with lastStudied := some (2 * 86400000) }] = 3 :=
  (calculateStreak_spec (2 * 86400000 + 3600000)).2 _ _ _ _ _ _ _ _ rfl rfl rfl rfl
    (by decide) (by decide) (by decide) (by decide) (by decide)

end GtuLearn
